import Mathlib

/-!
Verification of the TOON codec (`toon_rust`): a shallow embedding of the
encode/decode engine — line scanner, primitive tokenizer, array-header
parsing, streaming decoder, event builder, path expansion, key folding and
the encoder — together with theorems settling the specification claims.

Modelling conventions:
* Rust `&str`/`String` are modelled as `List Char` (named `Str`).  The Rust
  code indexes byte arrays, but every index used by the code sits on an
  ASCII character boundary and every comparison is against an ASCII
  character (UTF-8 continuation bytes never equal an ASCII byte), so byte
  indexing and character indexing coincide.
* Rust `f64` number payloads are modelled as exact rationals (`Rat`).
  Decimal literals are parsed exactly; the `f64::is_finite` test after
  parsing is modelled by the exact round-to-nearest overflow threshold of
  IEEE-754 binary64 (magnitudes `≥ 2^1024 - 2^970` round to infinity).
  Negative zero does not exist in `Rat`, so the `-0 → 0` folds in the
  source are identities here; no claim settled below depends on `-0` or on
  decimal-to-binary rounding.
* Fallible Rust functions returning `Result` are modelled with `Except`;
  error messages are kept as plain strings (interpolated line numbers and
  counts are dropped — no claim depends on message text).
* Recursive procedures whose termination rests on cursor progress are given
  an explicit fuel parameter; running out of fuel is a distinguished
  outcome, never identified with an error or a panic of the source.
-/

/-- Rust strings, modelled as lists of characters. -/
abbrev Str := List Char

namespace Toon

/-! ### Character and string helpers mirroring the Rust standard library -/

/-- Rust `char::is_whitespace` (the Unicode `White_Space` property). -/
def rustIsWhitespace (c : Char) : Bool :=
  c = ' ' || c = '\t' || c = '\n' || c = '\x0b' || c = '\x0c' || c = '\r' ||
  c = '\x85' || c = '\xa0' || c = ' ' ||
  (' ' ≤ c && c ≤ ' ') ||
  c = ' ' || c = ' ' || c = ' ' || c = ' ' || c = '　'

/-- Rust `str::trim_start`. -/
def trimStart (s : Str) : Str := s.dropWhile rustIsWhitespace

/-- Rust `str::trim_end`. -/
def trimEnd (s : Str) : Str := (s.reverse.dropWhile rustIsWhitespace).reverse

/-- Rust `str::trim`. -/
def trim (s : Str) : Str := trimEnd (trimStart s)

/-- Rust `str::find(char)`: index of the first occurrence of a character. -/
def strFind (s : Str) (c : Char) : Option Nat :=
  s.findIdx? (fun x => x = c)

/-- Rust `str::contains(char)`. -/
def strContainsChar (s : Str) (c : Char) : Bool := s.contains c

/-- Rust `str::starts_with(char)`. -/
def startsWithChar (s : Str) (c : Char) : Bool :=
  match s with
  | [] => false
  | x :: _ => x = c

/-- Rust `str::starts_with(&str)`. -/
def startsWithStr (s pre : Str) : Bool := pre.isPrefixOf s

/-- Rust `str::split('\n')` (keeps empty segments, as Rust does). -/
def splitOnChar (c : Char) (s : Str) : List Str :=
  match s with
  | [] => [[]]
  | x :: rest =>
    if x = c then [] :: splitOnChar c rest
    else
      match splitOnChar c rest with
      | [] => [[x]]
      | seg :: segs => (x :: seg) :: segs

/-- Whether every character satisfies `Char.isDigit` (ASCII digits). -/
def allDigits (s : Str) : Bool := s.all (fun c => c.isDigit)

/-- Rust `str::parse::<usize>()`: optional leading `+`, then one or more
ASCII digits (overflow is not modelled; lengths stay abstract `Nat`). -/
def parseUsize (s : Str) : Option Nat :=
  let body := match s with
    | '+' :: rest => rest
    | other => other
  if body.isEmpty then none
  else if allDigits body then
    some (body.foldl (fun acc c => acc * 10 + (c.toNat - '0'.toNat)) 0)
  else none

/-! ### The number model

`f64` payloads are exact rationals, carried as an explicit
numerator/denominator pair (`den` is a positive power of ten by
construction; the pair is not reduced, keeping every arithmetic step a
kernel-reducible integer operation).  Equality of `Num` values is
syntactic; all numbers flowing through the claims below are produced by
the same parsing path, for which syntactic and value equality coincide. -/

/-- An exact rational standing in for a finite `f64` value. -/
structure Num where
  n : ℤ
  d : ℕ
  deriving DecidableEq, Repr

/-- The exact binary64 round-to-nearest-even overflow threshold:
magnitudes `≥ 2^1024 - 2^970` round to infinity. -/
def f64OverflowBound : ℕ := 2 ^ 1024 - 2 ^ 970

/-- Model of `f64::is_finite` applied to the value a decimal literal
parses to: `|n| / d < 2^1024 - 2^970`, by cross multiplication. -/
def f64IsFinite (x : Num) : Bool := x.n.natAbs < f64OverflowBound * x.d

/-- Exact value of a decimal literal `[-]ddd[.ddd][(e|E)[+|-]ddd]`.
Used only after the numeric grammar has been checked; returns `0` on
inputs outside the grammar. -/
def numParse (s : Str) : Num :=
  let (sign, s1) : ℤ × Str :=
    match s with
    | '-' :: rest => (-1, rest)
    | other => (1, other)
  let intDigits := s1.takeWhile (fun c => c.isDigit)
  let afterInt := s1.dropWhile (fun c => c.isDigit)
  let intVal : ℕ := intDigits.foldl (fun acc c => acc * 10 + (c.toNat - '0'.toNat)) 0
  let (fracDigits, afterFrac) : Str × Str :=
    match afterInt with
    | '.' :: rest => (rest.takeWhile (fun c => c.isDigit), rest.dropWhile (fun c => c.isDigit))
    | other => ([], other)
  let fracVal : ℕ := fracDigits.foldl (fun acc c => acc * 10 + (c.toNat - '0'.toNat)) 0
  let expVal : ℤ :=
    match afterFrac with
    | 'e' :: rest => parseExp rest
    | 'E' :: rest => parseExp rest
    | _ => 0
  let mantN : ℤ := sign * (intVal * 10 ^ fracDigits.length + fracVal)
  let mantD : ℕ := 10 ^ fracDigits.length
  if 0 ≤ expVal then ⟨mantN * 10 ^ expVal.toNat, mantD⟩
  else ⟨mantN, mantD * 10 ^ (-expVal).toNat⟩
where
  /-- Exponent part: optional sign then digits. -/
  parseExp (rest : Str) : ℤ :=
    let (esign, digits) : ℤ × Str :=
      match rest with
      | '+' :: ds => (1, ds)
      | '-' :: ds => (-1, ds)
      | ds => (1, ds)
    esign * (digits.foldl (fun acc c => acc * 10 + (c.toNat - '0'.toNat)) 0 : ℕ)

/-- Decimal digits of a natural number, most significant first. -/
def natToStr (n : ℕ) : Str := Nat.toDigits 10 n

/-- Decimal expansion of the fractional part by long division (`fuel`
bounds the digit count; every exactly representable binary64 fraction
terminates within 1100 digits). -/
def fracDigitsOf : Nat → ℕ → ℕ → Str
  | 0, _, _ => []
  | _, 0, _ => []
  | fuel + 1, rem, den =>
    let d := rem * 10 / den
    let rem2 := rem * 10 % den
    Char.ofNat ('0'.toNat + d % 10) :: fracDigitsOf fuel rem2 den

/-- Stand-in for Rust `f64::to_string` on the rational model: exact
decimal expansion (integer part, then fractional digits).  Matches the
source exactly on integer-valued numbers; non-integers are printed in
plain positional notation. -/
def numToString (x : Num) : Str :=
  let sign : Str := if x.n < 0 then ['-'] else []
  let n : ℕ := x.n.natAbs
  let ip := n / x.d
  let rem := n % x.d
  if rem = 0 then sign ++ natToStr ip
  else sign ++ natToStr ip ++ ['.'] ++ fracDigitsOf 1100 rem x.d

/-! ### `shared/constants.rs` -/

def LIST_ITEM_MARKER : Str := ['-']
def listItemPrefixStr : Str := ['-', ' ']
def COLON : Char := ':'
def DEFAULT_DELIMITER : Char := ','
def DOT : Char := '.'

/-! ### `shared/string_utils.rs` -/

/-- `escape_string`: escape `\ " \n \r \t` with backslashes. -/
def escape_string (value : Str) : Str :=
  (value.map fun ch =>
    match ch with
    | '\\' => '\\' :: ['\\']
    | '"' => '\\' :: ['"']
    | '\n' => '\\' :: ['n']
    | '\r' => '\\' :: ['r']
    | '\t' => '\\' :: ['t']
    | other => [other]).flatten

/-- The five escape sequences `\n \t \r \\ \"`; any other escaped
character is invalid. -/
def escapeChar? (next : Char) : Option Char :=
  match next with
  | 'n' => some '\n'
  | 't' => some '\t'
  | 'r' => some '\r'
  | '\\' => some '\\'
  | '"' => some '"'
  | _ => none

/-- `unescape_string`: undo the five escapes, rejecting any other escape
sequence or a trailing backslash. -/
def unescape_string : Str → Except String Str
  | [] => .ok []
  | '\\' :: rest =>
    (match rest with
     | [] => .error "Invalid escape sequence: backslash at end of string"
     | next :: rest2 =>
       match escapeChar? next with
       | none => .error "Invalid escape sequence"
       | some c =>
         match unescape_string rest2 with
         | .error e => .error e
         | .ok out => .ok (c :: out))
  | ch :: rest =>
    match unescape_string rest with
    | .error e => .error e
    | .ok out => .ok (ch :: out)

/-- Scanner for `find_closing_quote`, walking `content` from index `i`,
skipping backslash pairs (only when another character follows, as the
byte-wise Rust loop does). -/
def fcqAux : Str → Nat → Option Nat
  | [], _ => none
  | '\\' :: _ :: rest, i => fcqAux rest (i + 2)
  | '"' :: _, i => some i
  | _ :: rest, i => fcqAux rest (i + 1)

/-- `find_closing_quote`: index of the closing quote of the string literal
opening at index `start`. -/
def find_closing_quote (content : Str) (start : Nat) : Option Nat :=
  fcqAux (content.drop (start + 1)) (start + 1)

/-- Scanner for `find_unquoted_char`.  When a backslash inside quotes is
the final character, the Rust loop takes none of its branches and simply
runs off the end, returning `None`. -/
def fucAux : Str → Char → Nat → Bool → Option Nat
  | [], _, _, _ => none
  | c :: rest, target, i, inQ =>
    if inQ && c = '\\' then
      match rest with
      | [] => none
      | _ :: rest2 => fucAux rest2 target (i + 2) inQ
    else if c = '"' then
      fucAux rest target (i + 1) (!inQ)
    else if c = target && !inQ then some i
    else fucAux rest target (i + 1) inQ

/-- `find_unquoted_char`: first occurrence of `target` outside double
quotes, starting the scan at `start`. -/
def find_unquoted_char (content : Str) (target : Char) (start : Nat) : Option Nat :=
  fucAux (content.drop start) target start false

/-! ### `shared/literal_utils.rs` -/

def TRUE_LITERAL : Str := ('t' :: "rue".data)
def FALSE_LITERAL : Str := ('f' :: "alse".data)
def NULL_LITERAL : Str := ('n' :: "ull".data)

def is_boolean_or_null_literal (value : Str) : Bool :=
  value = TRUE_LITERAL || value = FALSE_LITERAL || value = NULL_LITERAL

/-- `is_numeric_like`: loose numeric shape used only by the encoder's
quoting rule (note the early acceptance of multi-digit tokens with a
leading zero, faithful to the source). -/
def is_numeric_like (value : Str) : Bool :=
  let trimmed := trim value
  if trimmed.isEmpty then false
  else
    let (neg, s1) : Bool × Str :=
      match trimmed with
      | '-' :: rest => (true, rest)
      | other => (false, other)
    if neg && s1.isEmpty then false
    else
      let digits := s1.takeWhile (fun c => c.isDigit)
      let rest0 := s1.dropWhile (fun c => c.isDigit)
      if digits.length = 0 then false
      else if digits.length > 1 && digits.headI = '0' then true
      else
        let fracStep : Option Str :=
          match rest0 with
          | '.' :: r =>
            let frac := r.takeWhile (fun c => c.isDigit)
            if frac.length = 0 then none else some (r.dropWhile (fun c => c.isDigit))
          | other => some other
        match fracStep with
        | none => false
        | some rest1 =>
          let expStep : Option Str :=
            match rest1 with
            | 'e' :: r => expTail r
            | 'E' :: r => expTail r
            | other => some other
          match expStep with
          | none => false
          | some rest2 => rest2.isEmpty
where
  /-- Optional sign, then at least one digit. -/
  expTail (r : Str) : Option Str :=
    let ds : Str := match r with
      | '+' :: more => more
      | '-' :: more => more
      | more => more
    let eds : Str := ds.takeWhile (fun c => c.isDigit)
    if eds.length = 0 then none else some (ds.dropWhile (fun c => c.isDigit))

/-- The leading-minus split at the top of `is_numeric_literal`. -/
def numSignSplit : Str → Bool × Str
  | '-' :: rest => (true, rest)
  | other => (false, other)

/-- The integer-part block of `is_numeric_literal`: `0` alone or a
nonzero-led digit run; `none` when the grammar is violated. -/
def numIntStep : Str → Option Str
  | '0' :: r =>
    (match r with
     | c :: _ => if c.isDigit then none else some r
     | [] => some [])
  | c :: rest =>
    if c.isDigit then some ((c :: rest).dropWhile (fun x => x.isDigit)) else none
  | [] => none

/-- The fraction block of `is_numeric_literal`: optional `.` plus at
least one digit. -/
def numFracStep : Str → Option Str
  | '.' :: r =>
    let frac := r.takeWhile (fun c => c.isDigit)
    if frac.length = 0 then none else some (r.dropWhile (fun c => c.isDigit))
  | other => some other

/-- The exponent block of `is_numeric_literal`: optional `e`/`E` with
signed digits. -/
def numExpStep : Str → Option Str
  | 'e' :: r => is_numeric_like.expTail r
  | 'E' :: r => is_numeric_like.expTail r
  | other => some other

/-- `is_numeric_literal`: the strict JSON-compatible numeric grammar,
plus the source's final requirement that the token parse to a finite
`f64` (modelled by the exact binary64 overflow threshold). -/
def is_numeric_literal (value : Str) : Bool :=
  let trimmed := trim value
  if trimmed.isEmpty then false
  else
    let (neg, s1) : Bool × Str := numSignSplit trimmed
    if neg && s1.isEmpty then false
    else
      match numIntStep s1 with
      | none => false
      | some rest0 =>
        match numFracStep rest0 with
        | none => false
        | some rest1 =>
          match numExpStep rest1 with
          | none => false
          | some rest2 => rest2.isEmpty && f64IsFinite (numParse trimmed)

/-! ### `shared/validation.rs` -/

def is_valid_unquoted_key (key : Str) : Bool :=
  match key with
  | [] => false
  | first :: rest =>
    (first.isAlpha || first = '_') &&
    rest.all fun ch => ch.isAlphanum || ch = '_' || ch = '.'

def is_identifier_segment (segment : Str) : Bool :=
  match segment with
  | [] => false
  | first :: rest =>
    (first.isAlpha || first = '_') &&
    rest.all fun ch => ch.isAlphanum || ch = '_'

def is_safe_unquoted (value : Str) (delimiter : Char) : Bool :=
  if value.isEmpty then false
  else if trim value ≠ value then false
  else if is_boolean_or_null_literal value || is_numeric_like value then false
  else if strContainsChar value ':' then false
  else if strContainsChar value '"' || strContainsChar value '\\' then false
  else if strContainsChar value '[' || strContainsChar value ']' ||
          strContainsChar value '\x7b' || strContainsChar value '\x7d' then false
  else if strContainsChar value '\n' || strContainsChar value '\r' ||
          strContainsChar value '\t' then false
  else if strContainsChar value delimiter then false
  else if startsWithStr value LIST_ITEM_MARKER then false
  else true

/-! ### The data model (`lib.rs`) -/

/-- `StringOrNumberOrBoolOrNull` (aka `JsonPrimitive`); numbers are exact
rationals standing in for finite `f64` values. -/
inductive JsonPrim where
  | str (s : Str)
  | num (q : Num)
  | bool (b : Bool)
  | null
  deriving DecidableEq, Repr

/-- `JsonValue`: ordered arrays and ordered key/value objects. -/
inductive JsonValue where
  | primitive (p : JsonPrim)
  | array (items : List JsonValue)
  | object (entries : List (Str × JsonValue))
  deriving Repr

/-- Decidable equality for the nested inductive `JsonValue` (the deriving
handler does not support nested occurrences under `List`). -/
def decEqJsonValue : (a b : JsonValue) → Decidable (a = b)
  | .primitive p, .primitive q =>
    match decEq p q with
    | isTrue h => isTrue (by rw [h])
    | isFalse h => isFalse (by intro e; injection e; contradiction)
  | .array [], .array [] => isTrue rfl
  | .array [], .array (_ :: _) => isFalse (by intro e; injection e; simp_all)
  | .array (_ :: _), .array [] => isFalse (by intro e; injection e; simp_all)
  | .array (x :: xs), .array (y :: ys) =>
    match decEqJsonValue x y, decEqJsonValue (.array xs) (.array ys) with
    | isTrue h1, isTrue h2 => isTrue (by injection h2 with h3; rw [h1, h3])
    | isFalse h1, _ => isFalse (by intro e; injection e with h3; injection h3; simp_all)
    | _, isFalse h2 => isFalse (by
        intro e; injection e with h3; injection h3; apply h2; simp_all)
  | .object [], .object [] => isTrue rfl
  | .object [], .object (_ :: _) => isFalse (by intro e; injection e; simp_all)
  | .object (_ :: _), .object [] => isFalse (by intro e; injection e; simp_all)
  | .object ((k, x) :: xs), .object ((l, y) :: ys) =>
    match decEq k l, decEqJsonValue x y, decEqJsonValue (.object xs) (.object ys) with
    | isTrue h0, isTrue h1, isTrue h2 => isTrue (by injection h2 with h3; rw [h0, h1, h3])
    | isFalse h0, _, _ => isFalse (by intro e; injection e with h3; injection h3; simp_all)
    | _, isFalse h1, _ => isFalse (by intro e; injection e with h3; injection h3; simp_all)
    | _, _, isFalse h2 => isFalse (by
        intro e; injection e with h3; injection h3; apply h2; simp_all)
  | .primitive _, .array _ => isFalse (by intro e; exact JsonValue.noConfusion e)
  | .primitive _, .object _ => isFalse (by intro e; exact JsonValue.noConfusion e)
  | .array _, .primitive _ => isFalse (by intro e; exact JsonValue.noConfusion e)
  | .array _, .object _ => isFalse (by intro e; exact JsonValue.noConfusion e)
  | .object _, .primitive _ => isFalse (by intro e; exact JsonValue.noConfusion e)
  | .object _, .array _ => isFalse (by intro e; exact JsonValue.noConfusion e)

instance : DecidableEq JsonValue := decEqJsonValue

/-- `JsonStreamEvent`: the canonical event representation. -/
inductive JsonStreamEvent where
  | startObject
  | endObject
  | startArray (length : Nat)
  | endArray
  | key (k : Str) (wasQuoted : Bool)
  | primitive (v : JsonPrim)
  deriving DecidableEq, Repr

/-! ### `decode/parser.rs` -/

/-- `ArrayHeaderInfo`. -/
structure ArrayHeaderInfo where
  key : Option Str
  length : Nat
  delimiter : Char
  fields : Option (List Str)
  deriving DecidableEq, Repr

/-- `ArrayHeaderParseResult`. -/
structure ArrayHeaderParseResult where
  header : ArrayHeaderInfo
  inline_values : Option Str
  deriving DecidableEq, Repr

/-- `parse_bracket_segment`: strip an optional trailing tab/pipe delimiter
override, then parse the remaining text as the array length. -/
def parse_bracket_segment (seg : Str) (default_delimiter : Char) :
    Except String (Nat × Char) :=
  let (content, delimiter) : Str × Char :=
    if seg.getLast? = some '\t' then (seg.dropLast, '\t')
    else if seg.getLast? = some '|' then (seg.dropLast, '|')
    else (seg, default_delimiter)
  match parseUsize content with
  | none => .error "Invalid array length"
  | some length => .ok (length, delimiter)

/-- Loop of `parse_delimited_values`: split on the delimiter outside
quotes, keeping backslash pairs inside quotes intact, trimming each piece. -/
def pdvAux : Str → Char → Bool → Str → List Str → List Str
  | [], _, _, buffer, values =>
    if !buffer.isEmpty || !values.isEmpty then values ++ [trim buffer] else values
  | ch :: rest, delimiter, inQ, buffer, values =>
    if ch = '\\' && inQ then
      match rest with
      | [] => pdvAux [] delimiter inQ (buffer ++ [ch]) values
      | next :: rest2 => pdvAux rest2 delimiter inQ (buffer ++ [ch, next]) values
    else if ch = '"' then pdvAux rest delimiter (!inQ) (buffer ++ [ch]) values
    else if ch = delimiter && !inQ then pdvAux rest delimiter inQ [] (values ++ [trim buffer])
    else pdvAux rest delimiter inQ (buffer ++ [ch]) values

/-- `parse_delimited_values`. -/
def parse_delimited_values (input : Str) (delimiter : Char) : List Str :=
  pdvAux input delimiter false [] []

/-- `parse_string_literal`: unquote and unescape a quoted literal; a token
not starting with a quote is returned trimmed. -/
def parse_string_literal (token : Str) : Except String Str :=
  let trimmed := trim token
  if startsWithChar trimmed '"' then
    match find_closing_quote trimmed 0 with
    | none => .error "Unterminated string: missing closing quote"
    | some closing =>
      if closing ≠ trimmed.length - 1 then
        .error "Unexpected characters after closing quote"
      else
        unescape_string ((trimmed.drop 1).take (closing - 1))
  else .ok trimmed

/-- `parse_primitive_token`: classify a token as empty string, quoted
string, boolean/null, number, or bare string.  (On the rational model the
`-0 → 0` fold after parsing is the identity.) -/
def parse_primitive_token (token : Str) : Except String JsonPrim :=
  let trimmed := trim token
  if trimmed.isEmpty then .ok (.str [])
  else if startsWithChar trimmed '"' then
    match parse_string_literal trimmed with
    | .error e => .error e
    | .ok s => .ok (.str s)
  else if is_boolean_or_null_literal trimmed then
    .ok (if trimmed = TRUE_LITERAL then .bool true
      else if trimmed = FALSE_LITERAL then .bool false
      else .null)
  else if is_numeric_literal trimmed then
    .ok (.num (numParse trimmed))
  else .ok (.str trimmed)

/-- `map_row_values_to_primitives`. -/
def map_row_values_to_primitives (values : List Str) : Except String (List JsonPrim) :=
  values.mapM parse_primitive_token

/-- `parse_unquoted_key`: scan to the first colon at or after `start`. -/
def parse_unquoted_key (content : Str) (start : Nat) : Except String (Str × Nat) :=
  match strFind (content.drop start) COLON with
  | none => .error "Missing colon after key"
  | some rel =>
    let pos := start + rel
    .ok (trim ((content.drop start).take rel), pos + 1)

/-- `parse_quoted_key`: closing quote, unescape, then require a colon. -/
def parse_quoted_key (content : Str) (start : Nat) : Except String (Str × Nat) :=
  match find_closing_quote content start with
  | none => .error "Unterminated quoted key"
  | some closing =>
    match unescape_string ((content.drop (start + 1)).take (closing - start - 1)) with
    | .error e => .error e
    | .ok key =>
      let pos := closing + 1
      if pos ≥ content.length ∨ content.getD pos ' ' ≠ COLON then
        .error "Missing colon after key"
      else .ok (key, pos + 1)

/-- `parse_key_token`: quoted or unquoted key plus the index after the
colon and whether the key was quoted. -/
def parse_key_token (content : Str) (start : Nat) : Except String (Str × Nat × Bool) :=
  let is_quoted := content.getD start ' ' = '"' && start < content.length
  if is_quoted then
    match parse_quoted_key content start with
    | .error e => .error e
    | .ok (key, e) => .ok (key, e, true)
  else
    match parse_unquoted_key content start with
    | .error e => .error e
    | .ok (key, e) => .ok (key, e, false)

/-- `is_array_header_content`. -/
def is_array_header_content (content : Str) : Bool :=
  startsWithChar (trimStart content) '[' && (find_unquoted_char content COLON 0).isSome

/-- `is_key_value_content`. -/
def is_key_value_content (content : Str) : Bool :=
  (find_unquoted_char content COLON 0).isSome

/-- Bracket search of `parse_array_header_line`: `none` when the line is
not an array header, `some none` when no bracket is found, `some (some i)`
for the bracket position; shields brackets inside a quoted key. -/
def pahl_bracket_search (content : Str) : Except String (Option (Option Nat)) :=
  let trimmed := trimStart content
  if startsWithChar trimmed '"' then
    match find_closing_quote trimmed 0 with
    | none => throw "Unterminated string: missing closing quote"
    | some closing =>
      let after_quote := trimmed.drop (closing + 1)
      if !startsWithChar after_quote '[' then
        pure none
      else
        let leading_ws := content.length - trimmed.length
        let key_end := leading_ws + closing + 1
        pure (some ((strFind (content.drop key_end) '[').map fun idx => key_end + idx))
  else
    pure (some (strFind content '['))

/-- Key extraction of `parse_array_header_line`: the trimmed text before
the bracket, unquoted via `parse_string_literal` when it is quoted. -/
def pahl_key (content : Str) (bracket_start : Nat) : Except String (Option Str) :=
  if bracket_start > 0 then
    let raw_key := trim (content.take bracket_start)
    if startsWithChar raw_key '"' then
      match parse_string_literal raw_key with
      | .error e => throw e
      | .ok k => pure (some k)
    else if !raw_key.isEmpty then pure (some raw_key)
    else pure none
  else pure none

/-- Fields extraction of `parse_array_header_line`: the brace block before
the colon, split on the delimiter, each field unquoted. -/
def pahl_fields (content : Str) (brace_start : Option Nat) (colon_index : Nat)
    (delimiter : Char) : Except String (Option (List Str)) :=
  match brace_start with
  | some bs =>
    if bs < colon_index then
      match strFind (content.drop bs) '\x7d' with
      | some rel =>
        let found_end := bs + rel
        if found_end < colon_index then
          let fields_content := (content.drop (bs + 1)).take (found_end - bs - 1)
          match (parse_delimited_values fields_content delimiter).mapM
            (fun field => parse_string_literal (trim field)) with
          | .error e => throw e
          | .ok parsed => pure (some parsed)
        else pure none
      | none => pure none
    else pure none
  | none => pure none

/-- Brace search of `parse_array_header_line`: the position of the first
opening brace after the closing bracket. -/
def pahl_brace_search (content : Str) (bracket_end : Nat) : Option Nat :=
  (strFind (content.drop (bracket_end + 1)) '\x7b').map fun idx => bracket_end + 1 + idx

/-- Where the colon search of `parse_array_header_line` starts: one past
the closing brace when a brace block precedes the colon candidate, else
right after the closing bracket. -/
def pahl_brace_end (content : Str) (bracket_end : Nat) : Nat :=
  let colon_after_bracket : Option Nat :=
    (strFind (content.drop (bracket_end + 1)) COLON).map fun idx => bracket_end + 1 + idx
  match pahl_brace_search content bracket_end, colon_after_bracket with
  | some bs, some cab =>
    if bs < cab then
      match strFind (content.drop bs) '\x7d' with
      | some rel => bs + rel + 1
      | none => bracket_end + 1
    else bracket_end + 1
  | _, _ => bracket_end + 1

/-- Skeleton search of `parse_array_header_line`: the closing bracket
and the header colon, `none` when either is missing. -/
def pahl_skeleton (content : Str) (bracket_start : Nat) : Option (Nat × Nat) :=
  match strFind (content.drop bracket_start) ']' with
  | none => none
  | some bracket_end_rel =>
    let bracket_end := bracket_start + bracket_end_rel
    match strFind (content.drop (pahl_brace_end content bracket_end)) COLON with
    | none => none
    | some colon_rel => some (bracket_end, pahl_brace_end content bracket_end + colon_rel)

/-- `parse_array_header_line`: recognize `[key]?[N(delim)?]{fields}?: inline?`.
Returns `none` for lines the grammar search rejects, an error only from
string-literal parsing. -/
def parse_array_header_line (content : Str) (default_delimiter : Char) :
    Except String (Option ArrayHeaderParseResult) := do
  let bracket_start? : Option (Option Nat) ← pahl_bracket_search content
  match bracket_start? with
  | none => return none
  | some bracket_start? =>
  let some bracket_start := bracket_start? | return none
  let some (bracket_end, colon_index) := pahl_skeleton content bracket_start | return none
  let key? : Option Str ← pahl_key content bracket_start
  let after_colon := trim (content.drop (colon_index + 1))
  let bracket_content := (content.drop (bracket_start + 1)).take (bracket_end - bracket_start - 1)
  match parse_bracket_segment bracket_content default_delimiter with
  | .error _ => return none
  | .ok (length, delimiter) =>
  let fields? : Option (List Str) ←
    pahl_fields content (pahl_brace_search content bracket_end) colon_index delimiter
  return some {
    header := {
      key := key?
      length := length
      delimiter := delimiter
      fields := fields?
    }
    inline_values := if after_colon.isEmpty then none else some after_colon
  }

/-! ### `decode/scanner.rs` -/

/-- `ParsedLine`. -/
structure ParsedLine where
  raw : Str
  indent : Nat
  content : Str
  depth : Nat
  line_number : Nat
  deriving DecidableEq, Repr

/-- `BlankLineInfo`. -/
structure BlankLineInfo where
  line_number : Nat
  indent : Nat
  depth : Nat
  deriving DecidableEq, Repr

/-- `StreamingScanState`. -/
structure StreamingScanState where
  line_number : Nat
  blank_lines : List BlankLineInfo
  deriving DecidableEq, Repr

/-- `create_scan_state`. -/
def create_scan_state : StreamingScanState := ⟨0, []⟩

/-- `compute_depth_from_indent`. -/
def compute_depth_from_indent (indent_spaces indent_size : Nat) : Nat :=
  if indent_size = 0 then 0 else indent_spaces / indent_size

/-- `parse_line_incremental`: count leading spaces, record blank lines,
apply the strict-mode tab/indent checks, and build a `ParsedLine`.
The state is threaded explicitly (the Rust function mutates it). -/
def parse_line_incremental (raw : Str) (state : StreamingScanState)
    (indent_size : Nat) (strict : Bool) :
    Except String (Option ParsedLine × StreamingScanState) :=
  let line_number := state.line_number + 1
  let indent := (raw.takeWhile (fun c => c = ' ')).length
  let content_slice := raw.drop indent
  if (trim content_slice).isEmpty then
    let depth := compute_depth_from_indent indent indent_size
    .ok (none,
      { line_number := line_number
        blank_lines := state.blank_lines ++ [⟨line_number, indent, depth⟩] })
  else
    let content := content_slice
    let depth := compute_depth_from_indent indent indent_size
    let strictCheck : Except String Unit :=
      if strict then
        let leading_ws := raw.takeWhile (fun c => c = ' ' || c = '\t')
        if strContainsChar leading_ws '\t' then
          .error "Tabs are not allowed in indentation in strict mode"
        else if indent_size = 0 then
          if indent > 0 then
            .error "Indentation must be exact multiple of indent size"
          else .ok ()
        else if indent > 0 && indent % indent_size ≠ 0 then
          .error "Indentation must be exact multiple of indent size"
        else .ok ()
      else .ok ()
    match strictCheck with
    | .error e => .error e
    | .ok _ =>
      .ok (some ⟨raw, indent, content, depth, line_number⟩,
        { line_number := line_number, blank_lines := state.blank_lines })

/-- `parse_lines_sync`: scan all lines, dropping blanks. -/
def parse_lines_sync (source : List Str) (indent_size : Nat) (strict : Bool)
    (state : StreamingScanState) :
    Except String (List ParsedLine × StreamingScanState) :=
  match source with
  | [] => .ok ([], state)
  | raw :: rest =>
    match parse_line_incremental raw state indent_size strict with
    | .error e => .error e
    | .ok (parsed?, state2) =>
      match parse_lines_sync rest indent_size strict state2 with
      | .error e => .error e
      | .ok (lines, state3) =>
        .ok ((match parsed? with | some l => [l] | none => []) ++ lines, state3)

/-- `StreamingLineCursor`. -/
structure StreamingLineCursor where
  lines : List ParsedLine
  index : Nat
  last_line : Option ParsedLine
  blank_lines : List BlankLineInfo
  deriving DecidableEq, Repr

namespace StreamingLineCursor

/-- `StreamingLineCursor::new`. -/
def new (lines : List ParsedLine) (blank_lines : List BlankLineInfo) :
    StreamingLineCursor :=
  ⟨lines, 0, none, blank_lines⟩

/-- `get_blank_lines`. -/
def get_blank_lines (c : StreamingLineCursor) : List BlankLineInfo := c.blank_lines

/-- `peek_sync`. -/
def peek_sync (c : StreamingLineCursor) : Option ParsedLine := c.lines.get? c.index

/-- `advance_sync`. -/
def advance_sync (c : StreamingLineCursor) : StreamingLineCursor :=
  match c.lines.get? c.index with
  | some l => { c with last_line := some l, index := c.index + 1 }
  | none => c

/-- `next_sync`. -/
def next_sync (c : StreamingLineCursor) : Option ParsedLine × StreamingLineCursor :=
  match c.lines.get? c.index with
  | some l => (some l, { c with last_line := some l, index := c.index + 1 })
  | none => (none, c)

/-- `current`. -/
def current (c : StreamingLineCursor) : Option ParsedLine := c.last_line

/-- `at_end_sync`. -/
def at_end_sync (c : StreamingLineCursor) : Bool := c.lines.length ≤ c.index

end StreamingLineCursor

/-! ### `decode/validation.rs` -/

/-- `assert_expected_count` (interpolated numbers are dropped from the
message). -/
def assert_expected_count (actual expected : Nat) (item_type : String)
    (strict : Bool) : Except String Unit :=
  if strict && actual ≠ expected then
    .error ("Expected count mismatch: " ++ item_type)
  else .ok ()

/-- `validate_no_extra_list_items`. -/
def validate_no_extra_list_items (next_line : Option ParsedLine)
    (item_depth : Nat) (_expected_count : Nat) (strict : Bool) :
    Except String Unit :=
  if strict then
    match next_line with
    | some line =>
      if line.depth = item_depth && startsWithStr line.content listItemPrefixStr then
        .error "Expected list array items, but found more"
      else .ok ()
    | none => .ok ()
  else .ok ()

/-- `is_data_row`. -/
def is_data_row (content : Str) (delimiter : Char) : Bool :=
  let colon_pos := find_unquoted_char content COLON 0
  let delimiter_pos := find_unquoted_char content delimiter 0
  match colon_pos with
  | none => true
  | some cp =>
    match delimiter_pos with
    | some dp => dp < cp
    | none => false

/-- `validate_no_extra_tabular_rows`. -/
def validate_no_extra_tabular_rows (next_line : Option ParsedLine)
    (row_depth : Nat) (header : ArrayHeaderInfo) (strict : Bool) :
    Except String Unit :=
  if strict then
    match next_line with
    | some line =>
      if line.depth = row_depth && !startsWithStr line.content listItemPrefixStr &&
          is_data_row line.content header.delimiter then
        .error "Expected tabular rows, but found more"
      else .ok ()
    | none => .ok ()
  else .ok ()

/-- `validate_no_blank_lines_in_range`. -/
def validate_no_blank_lines_in_range (start_line end_line : Nat)
    (blank_lines : List BlankLineInfo) (strict : Bool) (_context : String) :
    Except String Unit :=
  if !strict then .ok ()
  else
    match blank_lines.find? (fun blank =>
        start_line < blank.line_number && blank.line_number < end_line) with
    | some _ => .error "Blank lines inside block are not allowed in strict mode"
    | none => .ok ()

/-! ### `decode/decoders.rs`

The mutually recursive decoder is driven by a cursor whose progress is the
real termination argument; the embedding threads an explicit fuel
parameter instead, with `DecRes.noFuel` as a distinguished outcome that is
never identified with a decode error. -/

/-- `DecodeStreamOptions` (`options.rs`). -/
structure DecodeStreamOptions where
  indent : Option Nat
  strict : Option Bool
  deriving DecidableEq, Repr

/-- `DecoderContext`. -/
structure DecoderContext where
  indent : Nat
  strict : Bool
  deriving DecidableEq, Repr

/-- Result of a fueled decoder step: success, a decode error, or fuel
exhaustion (an artefact of the embedding, not of the source). -/
inductive DecRes (α : Type) where
  | ok (a : α)
  | err (e : String)
  | noFuel
  deriving DecidableEq, Repr

instance : Monad DecRes where
  pure := .ok
  bind x f := match x with
    | .ok a => f a
    | .err e => .err e
    | .noFuel => .noFuel

/-- Lift a fallible call into a decoder step. -/
def DecRes.ofExcept : Except String α → DecRes α
  | .error e => .err e
  | .ok a => .ok a

/-- `decode_inline_primitive_array_sync` (pure: consumes no lines). -/
def decode_inline_primitive_array_sync (header : ArrayHeaderInfo)
    (inline_values : Str) (options : DecoderContext) :
    Except String (List JsonStreamEvent) :=
  if (trim inline_values).isEmpty then
    match assert_expected_count 0 header.length "inline array items" options.strict with
    | .error e => .error e
    | .ok _ => .ok []
  else
    let values := parse_delimited_values inline_values header.delimiter
    match map_row_values_to_primitives values with
    | .error e => .error e
    | .ok primitives =>
      match assert_expected_count primitives.length header.length
          "inline array items" options.strict with
      | .error e => .error e
      | .ok _ => .ok (primitives.map fun p => .primitive p)

/-- `yield_object_from_fields`: one `Key` per header field in order, each
paired with the row's primitive at that position, or `Null` past the end. -/
def yield_object_from_fields (fields : List Str) (primitives : List JsonPrim) :
    List JsonStreamEvent :=
  [.startObject] ++
  (fields.enum.map fun p =>
    [JsonStreamEvent.key p.2 false,
     match primitives.get? p.1 with
     | some value => JsonStreamEvent.primitive value
     | none => JsonStreamEvent.primitive .null]).flatten ++
  [.endObject]

/-- `is_key_value_line_sync`. -/
def is_key_value_line_sync (line : ParsedLine) : Bool :=
  let content := line.content
  if startsWithChar content '"' then
    match find_closing_quote content 0 with
    | some closing => strContainsChar (content.drop (closing + 1)) COLON
    | none => false
  else strContainsChar content COLON

mutual

/-- `decode_key_value_sync`, array-header path: a keyed header becomes a
`Key` event followed by the array; otherwise fall through to the plain
key/value path. -/
def decode_key_value_sync (fuel : Nat) (content : Str) (cursor : StreamingLineCursor)
    (base_depth : Nat) (options : DecoderContext) :
    DecRes (List JsonStreamEvent × StreamingLineCursor) :=
  match fuel with
  | 0 => .noFuel
  | fuel + 1 =>
    match parse_array_header_line content DEFAULT_DELIMITER with
    | .error e => .err e
    | .ok (some header_info) =>
      match header_info.header.key with
      | some key => do
        let (evs, cur2) ←
          decode_array_from_header_sync fuel header_info cursor base_depth options
        pure (JsonStreamEvent.key key false :: evs, cur2)
      | none => decode_key_value_plain fuel content cursor base_depth options
    | .ok none => decode_key_value_plain fuel content cursor base_depth options
termination_by structural fuel

/-- `decode_key_value_sync`, remainder after the array-header path: parse
the key token and dispatch on the rest of the line. -/
def decode_key_value_plain (fuel : Nat) (content : Str) (cursor : StreamingLineCursor)
    (base_depth : Nat) (options : DecoderContext) :
    DecRes (List JsonStreamEvent × StreamingLineCursor) :=
  match fuel with
  | 0 => .noFuel
  | fuel + 1 =>
    match parse_key_token content 0 with
    | .error e => .err e
    | .ok (key, endIdx, is_quoted) =>
      let rest := trim (content.drop endIdx)
      if rest.isEmpty then
        match cursor.peek_sync with
        | some next =>
          if next.depth > base_depth then do
            let (evs, cur2) ←
              decode_object_fields_sync fuel cursor (base_depth + 1) options none
            pure ([JsonStreamEvent.key key is_quoted, .startObject] ++ evs ++
              [.endObject], cur2)
          else pure ([JsonStreamEvent.key key is_quoted, .startObject, .endObject], cursor)
        | none => pure ([JsonStreamEvent.key key is_quoted, .startObject, .endObject], cursor)
      else
        match parse_primitive_token rest with
        | .error e => .err e
        | .ok v => pure ([JsonStreamEvent.key key is_quoted, .primitive v], cursor)
termination_by structural fuel

/-- `decode_object_fields_sync`: consume sibling lines at a fixed depth
(`computed_depth` is the loop variable of the Rust `while`, fixed by the
first line seen). -/
def decode_object_fields_sync (fuel : Nat) (cursor : StreamingLineCursor) (base_depth : Nat)
    (options : DecoderContext) (computed_depth : Option Nat) :
    DecRes (List JsonStreamEvent × StreamingLineCursor) :=
  match fuel with
  | 0 => .noFuel
  | fuel + 1 =>
    if cursor.at_end_sync then pure ([], cursor)
    else
      match cursor.peek_sync with
      | none => pure ([], cursor)
      | some line =>
        if line.depth < base_depth then pure ([], cursor)
        else
          let computed := computed_depth.getD line.depth
          if line.depth = computed then do
            let cur2 := cursor.advance_sync
            let (evs1, cur3) ←
              decode_key_value_sync fuel line.content cur2 line.depth options
            let (evs2, cur4) ←
              decode_object_fields_sync fuel cur3 base_depth options (some computed)
            pure (evs1 ++ evs2, cur4)
          else pure ([], cursor)
termination_by structural fuel

/-- `decode_array_from_header_sync`: emit `StartArray`, dispatch to the
inline/tabular/list body, emit `EndArray`. -/
def decode_array_from_header_sync (fuel : Nat) (header_info : ArrayHeaderParseResult)
    (cursor : StreamingLineCursor) (base_depth : Nat) (options : DecoderContext) :
    DecRes (List JsonStreamEvent × StreamingLineCursor) :=
  match fuel with
  | 0 => .noFuel
  | fuel + 1 =>
    let header := header_info.header
    let startEv := [JsonStreamEvent.startArray header.length]
    match header_info.inline_values with
    | some inline_values =>
      match decode_inline_primitive_array_sync header inline_values options with
      | .error e => .err e
      | .ok evs => pure (startEv ++ evs ++ [.endArray], cursor)
    | none =>
      let tabular := match header.fields with
        | some fields => !fields.isEmpty
        | none => false
      if tabular then do
        let (evs, cur2) ← decode_tabular_array_sync fuel header cursor base_depth options
        pure (startEv ++ evs ++ [.endArray], cur2)
      else do
        let (evs, cur2) ← decode_list_array_sync fuel header cursor base_depth options
        pure (startEv ++ evs ++ [.endArray], cur2)
termination_by structural fuel

/-- Row loop of `decode_tabular_array_sync`, threading the row count and
the first/last row line numbers. -/
def tabular_rows_loop (fuel : Nat) (header : ArrayHeaderInfo) (cursor : StreamingLineCursor)
    (row_depth : Nat) (options : DecoderContext) (row_count : Nat)
    (start_line end_line : Option Nat) :
    DecRes (List JsonStreamEvent × StreamingLineCursor × Nat × Option Nat × Option Nat) :=
  match fuel with
  | 0 => .noFuel
  | fuel + 1 =>
    if cursor.at_end_sync || !(row_count < header.length) then
      pure ([], cursor, row_count, start_line, end_line)
    else
      match cursor.peek_sync with
      | none => pure ([], cursor, row_count, start_line, end_line)
      | some line =>
        if line.depth < row_depth then pure ([], cursor, row_count, start_line, end_line)
        else if line.depth = row_depth then
          let start2 := if start_line.isNone then some line.line_number else start_line
          let end2 := some line.line_number
          let cur2 := cursor.advance_sync
          let values := parse_delimited_values line.content header.delimiter
          match header.fields with
          | none => .err "Tabular array is missing header fields"
          | some fields =>
            match assert_expected_count values.length fields.length
                "tabular row values" options.strict with
            | .error e => .err e
            | .ok _ =>
              match map_row_values_to_primitives values with
              | .error e => .err e
              | .ok primitives => do
                let rowEvs := yield_object_from_fields fields primitives
                let (evs, cur3, rc, s3, e3) ← tabular_rows_loop fuel header cur2
                  row_depth options (row_count + 1) start2 end2
                pure (rowEvs ++ evs, cur3, rc, s3, e3)
        else pure ([], cursor, row_count, start_line, end_line)
termination_by structural fuel

/-- `decode_tabular_array_sync`. -/
def decode_tabular_array_sync (fuel : Nat) (header : ArrayHeaderInfo)
    (cursor : StreamingLineCursor) (base_depth : Nat) (options : DecoderContext) :
    DecRes (List JsonStreamEvent × StreamingLineCursor) :=
  match fuel with
  | 0 => .noFuel
  | fuel + 1 => do
    let row_depth := base_depth + 1
    let (evs, cur2, row_count, start_line, end_line) ←
      tabular_rows_loop fuel header cursor row_depth options 0 none none
    match assert_expected_count row_count header.length "tabular rows" options.strict with
    | .error e => .err e
    | .ok _ =>
    let blankCheck : Except String Unit :=
      if options.strict then
        match start_line, end_line with
        | some s, some e2 =>
          validate_no_blank_lines_in_range s e2 cur2.get_blank_lines
            options.strict "tabular array"
        | _, _ => .ok ()
      else .ok ()
    match blankCheck with
    | .error e => .err e
    | .ok _ =>
    match validate_no_extra_tabular_rows cur2.peek_sync row_depth header options.strict with
    | .error e => .err e
    | .ok _ => pure (evs, cur2)

/-- Item loop of `decode_list_array_sync`. -/
def list_items_loop (fuel : Nat) (header : ArrayHeaderInfo) (cursor : StreamingLineCursor)
    (item_depth : Nat) (options : DecoderContext) (item_count : Nat)
    (start_line end_line : Option Nat) :
    DecRes (List JsonStreamEvent × StreamingLineCursor × Nat × Option Nat × Option Nat) :=
  match fuel with
  | 0 => .noFuel
  | fuel + 1 =>
    if cursor.at_end_sync || !(item_count < header.length) then
      pure ([], cursor, item_count, start_line, end_line)
    else
      match cursor.peek_sync with
      | none => pure ([], cursor, item_count, start_line, end_line)
      | some line =>
        if line.depth < item_depth then
          pure ([], cursor, item_count, start_line, end_line)
        else
          let is_list_item := startsWithStr line.content listItemPrefixStr ||
            line.content = LIST_ITEM_MARKER
          if line.depth = item_depth && is_list_item then do
            let start2 := if start_line.isNone then some line.line_number else start_line
            let end2 := some line.line_number
            let (evs1, cur2) ← decode_list_item_sync fuel cursor item_depth options
            let end3 := match cur2.current with
              | some current => some current.line_number
              | none => end2
            let (evs2, cur3, ic, s4, e4) ← list_items_loop fuel header cur2 item_depth
              options (item_count + 1) start2 end3
            pure (evs1 ++ evs2, cur3, ic, s4, e4)
          else pure ([], cursor, item_count, start_line, end_line)
termination_by structural fuel

/-- `decode_list_array_sync`. -/
def decode_list_array_sync (fuel : Nat) (header : ArrayHeaderInfo)
    (cursor : StreamingLineCursor) (base_depth : Nat) (options : DecoderContext) :
    DecRes (List JsonStreamEvent × StreamingLineCursor) :=
  match fuel with
  | 0 => .noFuel
  | fuel + 1 => do
    let item_depth := base_depth + 1
    let (evs, cur2, item_count, start_line, end_line) ←
      list_items_loop fuel header cursor item_depth options 0 none none
    match assert_expected_count item_count header.length
        "list array items" options.strict with
    | .error e => .err e
    | .ok _ =>
    let blankCheck : Except String Unit :=
      if options.strict then
        match start_line, end_line with
        | some s, some e2 =>
          validate_no_blank_lines_in_range s e2 cur2.get_blank_lines
            options.strict "list array"
        | _, _ => .ok ()
      else .ok ()
    match blankCheck with
    | .error e => .err e
    | .ok _ =>
    match validate_no_extra_list_items cur2.peek_sync item_depth header.length
        options.strict with
    | .error e => .err e
    | .ok _ => pure (evs, cur2)
termination_by structural fuel

/-- `decode_list_item_sync`: consume one `- `-prefixed line and decode the
item (the Rust function parses `after_hyphen` as an array header twice;
the parse is deterministic, so the embedding parses once and branches). -/
def decode_list_item_sync (fuel : Nat) (cursor : StreamingLineCursor) (base_depth : Nat)
    (options : DecoderContext) :
    DecRes (List JsonStreamEvent × StreamingLineCursor) :=
  match fuel with
  | 0 => .noFuel
  | fuel + 1 =>
    match cursor.next_sync with
    | (none, _) => .err "Expected list item"
    | (some line, cur1) =>
      if line.content = LIST_ITEM_MARKER then
        pure ([.startObject, .endObject], cur1)
      else if !startsWithStr line.content listItemPrefixStr then
        .err "Expected list item to start with marker"
      else
        let after_hyphen := line.content.drop listItemPrefixStr.length
        if (trim after_hyphen).isEmpty then pure ([.startObject, .endObject], cur1)
        else
          match parse_array_header_line after_hyphen DEFAULT_DELIMITER with
          | .error e => .err e
          | .ok (some header_info) =>
            if is_array_header_content after_hyphen then
              decode_array_from_header_sync fuel header_info cur1 base_depth options
            else if header_info.header.key.isSome && header_info.header.fields.isSome then do
              let header := header_info.header
              let key := header.key.getD []
              let (evs1, cur2) ← decode_array_from_header_sync fuel
                ⟨header, header_info.inline_values⟩ cur1 (base_depth + 1) options
              let (evs2, cur3) ← list_item_follow_loop fuel cur2 (base_depth + 1) options
              pure ([JsonStreamEvent.startObject, .key key false] ++ evs1 ++ evs2 ++
                [.endObject], cur3)
            else decode_list_item_rest fuel after_hyphen cur1 base_depth options
          | .ok none => decode_list_item_rest fuel after_hyphen cur1 base_depth options
termination_by structural fuel

/-- Tail of `decode_list_item_sync`: key/value item with trailing sibling
fields, or a bare primitive item. -/
def decode_list_item_rest (fuel : Nat) (after_hyphen : Str) (cursor : StreamingLineCursor)
    (base_depth : Nat) (options : DecoderContext) :
    DecRes (List JsonStreamEvent × StreamingLineCursor) :=
  match fuel with
  | 0 => .noFuel
  | fuel + 1 =>
    if is_key_value_content after_hyphen then do
      let (evs1, cur2) ←
        decode_key_value_sync fuel after_hyphen cursor (base_depth + 1) options
      let (evs2, cur3) ← list_item_follow_loop fuel cur2 (base_depth + 1) options
      pure ([JsonStreamEvent.startObject] ++ evs1 ++ evs2 ++ [.endObject], cur3)
    else
      match parse_primitive_token after_hyphen with
      | .error e => .err e
      | .ok v => pure ([.primitive v], cursor)
termination_by structural fuel

/-- The shared follow-up loop of `decode_list_item_sync`: consume sibling
key/value lines of a one-field object item at `follow_depth`. -/
def list_item_follow_loop (fuel : Nat) (cursor : StreamingLineCursor) (follow_depth : Nat)
    (options : DecoderContext) :
    DecRes (List JsonStreamEvent × StreamingLineCursor) :=
  match fuel with
  | 0 => .noFuel
  | fuel + 1 =>
    if cursor.at_end_sync then pure ([], cursor)
    else
      match cursor.peek_sync with
      | none => pure ([], cursor)
      | some next_line =>
        if next_line.depth < follow_depth then pure ([], cursor)
        else if next_line.depth = follow_depth &&
            !startsWithStr next_line.content listItemPrefixStr then do
          let cur2 := cursor.advance_sync
          let (evs1, cur3) ←
            decode_key_value_sync fuel next_line.content cur2 follow_depth options
          let (evs2, cur4) ← list_item_follow_loop fuel cur3 follow_depth options
          pure (evs1 ++ evs2, cur4)
        else pure ([], cursor)
termination_by structural fuel

/-- Root-level sibling loop of `decode_stream_sync` (depth-0 key/value
lines after the first). -/
def root_fields_loop (fuel : Nat) (cursor : StreamingLineCursor) (options : DecoderContext) :
    DecRes (List JsonStreamEvent × StreamingLineCursor) :=
  match fuel with
  | 0 => .noFuel
  | fuel + 1 =>
    if cursor.at_end_sync then pure ([], cursor)
    else
      match cursor.peek_sync with
      | none => pure ([], cursor)
      | some line =>
        if line.depth ≠ 0 then pure ([], cursor)
        else do
          let cur2 := cursor.advance_sync
          let (evs1, cur3) ← decode_key_value_sync fuel line.content cur2 0 options
          let (evs2, cur4) ← root_fields_loop fuel cur3 options
          pure (evs1 ++ evs2, cur4)
termination_by structural fuel
end

/-- Object/primitive root branch of `decode_stream_sync`. -/
def decode_stream_root_object (fuel : Nat) (first : ParsedLine)
    (cursor : StreamingLineCursor) (context : DecoderContext) :
    DecRes (List JsonStreamEvent) :=
  let cur1 := cursor.advance_sync
  let has_more := !cur1.at_end_sync
  if !has_more && !is_key_value_line_sync first then
    match parse_primitive_token (trim first.content) with
    | .error e => .err e
    | .ok v => .ok [.primitive v]
  else do
    let (evs1, cur2) ← decode_key_value_sync fuel first.content cur1 0 context
    let (evs2, _) ← root_fields_loop fuel cur2 context
    pure ([JsonStreamEvent.startObject] ++ evs1 ++ evs2 ++ [.endObject])

/-- `decode_stream_sync`: scan the lines, then decode from the root. -/
def decode_stream_sync (fuel : Nat) (source : List Str)
    (options : Option DecodeStreamOptions) : DecRes (List JsonStreamEvent) :=
  let options := options.getD ⟨none, none⟩
  let context : DecoderContext := ⟨options.indent.getD 2, options.strict.getD true⟩
  match parse_lines_sync source context.indent context.strict create_scan_state with
  | .error e => .err e
  | .ok (lines, scan_state) =>
    let cursor := StreamingLineCursor.new lines scan_state.blank_lines
    match cursor.peek_sync with
    | none => .ok [.startObject, .endObject]
    | some first =>
      if is_array_header_content first.content then
        match parse_array_header_line first.content DEFAULT_DELIMITER with
        | .error e => .err e
        | .ok (some header_info) => do
          let (evs, _) ←
            decode_array_from_header_sync fuel header_info cursor.advance_sync 0 context
          pure evs
        | .ok none => decode_stream_root_object fuel first cursor context
      else decode_stream_root_object fuel first cursor context

/-! ### `decode/event_builder.rs`

`NodeValue`/`ObjectNode` are flattened into one nested inductive: the
`object` constructor carries the entry list and the quoted-key set
(modelled as a duplicate-free list, only ever queried for membership). -/

/-- `NodeValue` with `ObjectNode` inlined. -/
inductive NodeValue where
  | primitive (p : JsonPrim)
  | array (items : List NodeValue)
  | object (entries : List (Str × NodeValue)) (quoted_keys : List Str)
  deriving Repr

/-- `BuildContext`. -/
inductive BuildContext where
  | object (entries : List (Str × NodeValue)) (current_key : Option Str)
      (quoted_keys : List Str)
  | array (items : List NodeValue)
  deriving Repr

/-- `BuildState` (the Rust stack pushes/pops at the end of a `Vec`; here
the head of the list is the top of the stack). -/
structure BuildState where
  stack : List BuildContext
  root : Option NodeValue
  deriving Repr

/-- `HashSet::insert` on the quoted-keys set. -/
def insertQuotedKey (qs : List Str) (key : Str) : List Str :=
  if qs.contains key then qs else qs ++ [key]

/-- Attach a finished node to the parent frame, or make it the root
(shared tail of the `EndObject`/`EndArray` cases of `apply_event`). -/
def attachNode (state : BuildState) (node : NodeValue) : Except String BuildState :=
  match state.stack with
  | [] => .ok { state with root := some node }
  | parent :: others =>
    match parent with
    | .object entries current_key quoted_keys =>
      match current_key with
      | none => .error "End event without preceding key"
      | some key =>
        .ok { state with
          stack := .object (entries ++ [(key, node)]) none quoted_keys :: others }
    | .array items => .ok { state with stack := .array (items ++ [node]) :: others }

/-- `apply_event`. -/
def apply_event (state : BuildState) (event : JsonStreamEvent) :
    Except String BuildState :=
  match event with
  | .startObject => .ok { state with stack := .object [] none [] :: state.stack }
  | .endObject =>
    match state.stack with
    | [] => .error "Unexpected endObject event"
    | context :: rest =>
      match context with
      | .object entries _ quoted_keys =>
        attachNode { state with stack := rest } (.object entries quoted_keys)
      | .array _ => .error "Mismatched endObject event"
  | .startArray _ => .ok { state with stack := .array [] :: state.stack }
  | .endArray =>
    match state.stack with
    | [] => .error "Unexpected endArray event"
    | context :: rest =>
      match context with
      | .array items => attachNode { state with stack := rest } (.array items)
      | .object _ _ _ => .error "Mismatched endArray event"
  | .key key was_quoted =>
    match state.stack with
    | .object entries _ quoted_keys :: rest =>
      .ok { state with
        stack := .object entries (some key)
          (if was_quoted then insertQuotedKey quoted_keys key else quoted_keys) :: rest }
    | _ => .error "Key event outside of object context"
  | .primitive value =>
    match state.stack with
    | [] => .ok { state with root := some (.primitive value) }
    | .object entries current_key quoted_keys :: rest =>
      match current_key with
      | none => .error "Primitive event without preceding key in object"
      | some key =>
        .ok { state with
          stack := .object (entries ++ [(key, .primitive value)]) none quoted_keys :: rest }
    | .array items :: rest =>
      .ok { state with stack := .array (items ++ [.primitive value]) :: rest }

/-- Event fold of `build_node_from_events`. -/
def apply_events (state : BuildState) : List JsonStreamEvent → Except String BuildState
  | [] => .ok state
  | event :: rest =>
    match apply_event state event with
    | .error e => .error e
    | .ok state2 => apply_events state2 rest

/-- `finalize_state`. -/
def finalize_state (state : BuildState) : Except String NodeValue :=
  if !state.stack.isEmpty then
    .error "Incomplete event stream: stack not empty at end"
  else
    match state.root with
    | some root => .ok root
    | none => .error "No root value built from events"

/-- `build_node_from_events`. -/
def build_node_from_events (events : List JsonStreamEvent) : Except String NodeValue :=
  match apply_events ⟨[], none⟩ events with
  | .error e => .error e
  | .ok state => finalize_state state

mutual

/-- `node_to_json`. -/
def node_to_json : NodeValue → JsonValue
  | .primitive value => .primitive value
  | .array items => .array (nodes_to_json items)
  | .object entries _ => .object (node_entries_to_json entries)

/-- `node_to_json` mapped over array elements. -/
def nodes_to_json : List NodeValue → List JsonValue
  | [] => []
  | x :: xs => node_to_json x :: nodes_to_json xs

/-- `node_to_json` mapped over object entries. -/
def node_entries_to_json : List (Str × NodeValue) → List (Str × JsonValue)
  | [] => []
  | e :: es => (e.1, node_to_json e.2) :: node_entries_to_json es

end

/-! ### `decode/expand.rs` -/

/-- `find_entry_index`. -/
def find_entry_index (entries : List (Str × NodeValue)) (key : Str) : Option Nat :=
  entries.findIdx? (fun e => e.1 = key)

/-- `node_type_name`. -/
def node_type_name : NodeValue → String
  | .primitive _ => "primitive"
  | .array _ => "array"
  | .object _ _ => "object"

/-- `can_merge`: both sides are objects. -/
def can_merge : NodeValue → NodeValue → Bool
  | .object _ _, .object _ _ => true
  | _, _ => false

mutual

/-- `merge_objects`, iterating the source entries (the target's
quoted-key set is untouched by the Rust function and is threaded outside
this helper). -/
def merge_entries (strict : Bool) (target : List (Str × NodeValue)) :
    List (Str × NodeValue) → Except String (List (Str × NodeValue))
  | [] => .ok target
  | (key, value) :: rest =>
    match merge_one_entry strict target key value with
    | .error e => .error e
    | .ok target2 => merge_entries strict target2 rest

/-- Body of the `merge_objects` loop for one source entry. -/
def merge_one_entry (strict : Bool) (target : List (Str × NodeValue))
    (key : Str) (value : NodeValue) : Except String (List (Str × NodeValue)) :=
  match find_entry_index target key with
  | some index =>
    match target.get? index with
    | none => .ok target
    | some (k0, existing) =>
      match existing, value with
      | .object ex_entries ex_qs, .object src_entries _ =>
        match merge_entries strict ex_entries src_entries with
        | .error e => .error e
        | .ok merged => .ok (target.set index (k0, .object merged ex_qs))
      | _, _ =>
        if strict then .error "Path expansion conflict: cannot merge"
        else .ok (target.set index (k0, value))
  | none => .ok (target ++ [(key, value)])

end

/-- `insert_literal_entry` (both-objects collisions merge recursively,
other collisions error in strict mode and overwrite otherwise). -/
def insert_literal_entry (entries : List (Str × NodeValue)) (key : Str)
    (value : NodeValue) (strict : Bool) : Except String (List (Str × NodeValue)) :=
  match find_entry_index entries key with
  | some index =>
    match entries.get? index with
    | none => .ok entries
    | some (k0, existing) =>
      match existing, value with
      | .object ex_entries ex_qs, .object src_entries _ =>
        match merge_entries strict ex_entries src_entries with
        | .error e => .error e
        | .ok merged => .ok (entries.set index (k0, .object merged ex_qs))
      | _, _ =>
        if strict then .error "Path expansion conflict: cannot merge"
        else .ok (entries.set index (k0, value))
  | none => .ok (entries ++ [(key, value)])

/-- `insert_path_entries`: walk the dotted segments, creating or entering
intermediate objects. -/
def insert_path_entries (entries : List (Str × NodeValue)) (segments : List Str)
    (value : NodeValue) (strict : Bool) : Except String (List (Str × NodeValue)) :=
  match segments with
  | [] => .ok entries
  | [seg] => insert_literal_entry entries seg value strict
  | key :: rest =>
    match find_entry_index entries key with
    | some index =>
      match entries.get? index with
      | none => .ok entries
      | some (k0, existing) =>
        match existing with
        | .object oentries oqs =>
          match insert_path_entries oentries rest value strict with
          | .error e => .error e
          | .ok inner => .ok (entries.set index (k0, .object inner oqs))
        | _ =>
          if strict then
            .error "Path expansion conflict: expected object"
          else
            match insert_path_entries [] rest value strict with
            | .error e => .error e
            | .ok inner => .ok (entries.set index (k0, .object inner []))
    | none =>
      match insert_path_entries [] rest value strict with
      | .error e => .error e
      | .ok inner => .ok (entries ++ [(key, .object inner [])])

mutual

/-- `expand_paths_safe`. -/
def expand_paths_safe (value : NodeValue) (strict : Bool) : Except String NodeValue :=
  match value with
  | .array items =>
    match expand_items items strict with
    | .error e => .error e
    | .ok expanded => .ok (.array expanded)
  | .object entries quoted_keys =>
    match expand_object_entries quoted_keys strict entries [] with
    | .error e => .error e
    | .ok expanded => .ok (.object expanded [])
  | .primitive v => .ok (.primitive v)

/-- `expand_paths_safe` mapped over array elements. -/
def expand_items : List NodeValue → Bool → Except String (List NodeValue)
  | [], _ => .ok []
  | x :: xs, strict =>
    match expand_paths_safe x strict with
    | .error e => .error e
    | .ok x2 =>
      match expand_items xs strict with
      | .error e => .error e
      | .ok xs2 => .ok (x2 :: xs2)

/-- Entry loop of `expand_object`: each entry is expanded recursively and
then inserted as a dotted path (when the key qualifies) or literally. -/
def expand_object_entries (quoted_keys : List Str) (strict : Bool) :
    List (Str × NodeValue) → List (Str × NodeValue) →
    Except String (List (Str × NodeValue))
  | [], acc => .ok acc
  | (key, value) :: rest, acc =>
    match expand_paths_safe value strict with
    | .error e => .error e
    | .ok value2 =>
      let is_quoted := quoted_keys.contains key
      let doPath : Bool :=
        strContainsChar key DOT && !is_quoted &&
        (splitOnChar DOT key).all is_identifier_segment
      let inserted :=
        if doPath then insert_path_entries acc (splitOnChar DOT key) value2 strict
        else insert_literal_entry acc key value2 strict
      match inserted with
      | .error e => .error e
      | .ok acc2 => expand_object_entries quoted_keys strict rest acc2

end

/-! ### `decode/mod.rs` -/

/-- `ExpandPathsMode` (`options.rs`). -/
inductive ExpandPathsMode where
  | off
  | safe
  deriving DecidableEq, Repr

/-- `DecodeOptions` (`options.rs`). -/
structure DecodeOptions where
  indent : Option Nat
  strict : Option Bool
  expand_paths : Option ExpandPathsMode
  deriving DecidableEq, Repr

/-- `ResolvedDecodeOptions` (`options.rs`). -/
structure ResolvedDecodeOptions where
  indent : Nat
  strict : Bool
  expand_paths : ExpandPathsMode
  deriving DecidableEq, Repr

/-- `resolve_decode_options`: defaults are indent 2, strict, no path
expansion. -/
def resolve_decode_options (options : Option DecodeOptions) : ResolvedDecodeOptions :=
  let options := options.getD ⟨none, none, none⟩
  { indent := options.indent.getD 2
    strict := options.strict.getD true
    expand_paths := options.expand_paths.getD .off }

/-- `try_decode_from_lines`. -/
def try_decode_from_lines (fuel : Nat) (lines : List Str)
    (options : Option DecodeOptions) : DecRes JsonValue := do
  let resolved := resolve_decode_options options
  let events ← decode_stream_sync fuel lines
    (some ⟨some resolved.indent, some resolved.strict⟩)
  let node ← DecRes.ofExcept (build_node_from_events events)
  let node ←
    if resolved.expand_paths = ExpandPathsMode.safe then
      DecRes.ofExcept (expand_paths_safe node resolved.strict)
    else pure node
  pure (node_to_json node)

/-- `try_decode`: split the input on newlines and decode. -/
def try_decode (fuel : Nat) (input : Str) (options : Option DecodeOptions) :
    DecRes JsonValue :=
  try_decode_from_lines fuel (splitOnChar '\n' input) options

/-! ### `options.rs` (encode side)

The optional `replacer` callback is not part of the embedding: every claim
below concerns the default configuration, where no replacer is supplied
and `encode_lines` skips the replacer pass entirely. -/

/-- `KeyFoldingMode`. -/
inductive KeyFoldingMode where
  | off
  | safe
  deriving DecidableEq, Repr

/-- `usize::MAX`, the default `flatten_depth`. -/
def usizeMax : Nat := 2 ^ 64 - 1

/-- `EncodeOptions` (without the unmodelled replacer). -/
structure EncodeOptions where
  indent : Option Nat
  delimiter : Option Char
  key_folding : Option KeyFoldingMode
  flatten_depth : Option Nat
  deriving DecidableEq, Repr

/-- `ResolvedEncodeOptions` (without the unmodelled replacer). -/
structure ResolvedEncodeOptions where
  indent : Nat
  delimiter : Char
  key_folding : KeyFoldingMode
  flatten_depth : Nat
  deriving DecidableEq, Repr

/-- `resolve_encode_options`. -/
def resolve_encode_options (options : Option EncodeOptions) : ResolvedEncodeOptions :=
  let options := options.getD ⟨none, none, none, none⟩
  { indent := options.indent.getD 2
    delimiter := options.delimiter.getD DEFAULT_DELIMITER
    key_folding := options.key_folding.getD .off
    flatten_depth := options.flatten_depth.getD usizeMax }

/-! ### `encode/normalize.rs` -/

/-- `normalize_primitive`: in the source, non-finite numbers become
`Null` and `-0` becomes `0`; neither value is representable in the `Num`
model, so the number branch is the identity here. -/
def normalize_primitive (value : JsonPrim) : JsonPrim :=
  match value with
  | .num v => .num v
  | other => other

mutual

/-- `normalize_json_value`. -/
def normalize_json_value : JsonValue → JsonValue
  | .primitive primitive => .primitive (normalize_primitive primitive)
  | .array items => .array (normalize_items items)
  | .object entries => .object (normalize_entries entries)

/-- `normalize_json_value` mapped over array elements. -/
def normalize_items : List JsonValue → List JsonValue
  | [] => []
  | x :: xs => normalize_json_value x :: normalize_items xs

/-- `normalize_json_value` mapped over object entries. -/
def normalize_entries : List (Str × JsonValue) → List (Str × JsonValue)
  | [] => []
  | e :: es => (e.1, normalize_json_value e.2) :: normalize_entries es

end

/-- `is_json_primitive`. -/
def is_json_primitive : JsonValue → Bool
  | .primitive _ => true
  | _ => false

/-- `is_json_object`. -/
def is_json_object : JsonValue → Bool
  | .object _ => true
  | _ => false

/-- `is_empty_object`. -/
def is_empty_object (value : List (Str × JsonValue)) : Bool := value.isEmpty

/-- `is_array_of_primitives`. -/
def is_array_of_primitives (value : List JsonValue) : Bool :=
  value.all fun item => match item with
    | .primitive _ => true
    | _ => false

/-- `is_array_of_arrays`. -/
def is_array_of_arrays (value : List JsonValue) : Bool :=
  value.all fun item => match item with
    | .array _ => true
    | _ => false

/-- `is_array_of_objects`. -/
def is_array_of_objects (value : List JsonValue) : Bool :=
  value.all fun item => match item with
    | .object _ => true
    | _ => false

/-! ### `encode/primitives.rs` -/

/-- `format_number` (the NaN/infinity branch is unrepresentable in the
`Num` model). -/
def format_number (value : Num) : Str :=
  if value.n = 0 then ['0'] else numToString value

/-- `encode_string_literal`. -/
def encode_string_literal (value : Str) (delimiter : Char) : Str :=
  if is_safe_unquoted value delimiter then value
  else '"' :: escape_string value ++ ['"']

/-- `encode_key`. -/
def encode_key (key : Str) : Str :=
  if is_valid_unquoted_key key then key
  else '"' :: escape_string key ++ ['"']

/-- `encode_primitive`. -/
def encode_primitive (value : JsonPrim) (delimiter : Char) : Str :=
  match value with
  | .null => NULL_LITERAL
  | .bool b => if b then TRUE_LITERAL else FALSE_LITERAL
  | .num v => format_number v
  | .str s => encode_string_literal s delimiter

/-- `encode_and_join_primitives`. -/
def encode_and_join_primitives (values : List JsonPrim) (delimiter : Char) : Str :=
  match values with
  | [] => []
  | v :: rest =>
    encode_primitive v delimiter ++
    (rest.map fun value => delimiter :: encode_primitive value delimiter).flatten

/-- `format_header`: `key?[N(delim)?]{fields}?:`. -/
def format_header (length : Nat) (key : Option Str) (fields : Option (List Str))
    (delimiter : Char) : Str :=
  (match key with
   | some k => encode_key k
   | none => []) ++
  (if delimiter = DEFAULT_DELIMITER then '[' :: natToStr length ++ [']']
   else '[' :: natToStr length ++ [delimiter, ']']) ++
  (match fields with
   | some fs =>
     ['\x7b'] ++
     (match fs with
      | [] => []
      | f :: rest =>
        encode_key f ++ (rest.map fun field => delimiter :: encode_key field).flatten) ++
     ['\x7d']
   | none => []) ++
  [':']

/-! ### `encode/folding.rs` -/

/-- `FoldResult`. -/
structure FoldResult where
  folded_key : Str
  remainder : Option JsonValue
  leaf_value : JsonValue
  segment_count : Nat
  deriving Repr

/-- Loop of `collect_single_key_chain`: descend through single-entry
objects while fewer than `max_depth` segments have been collected
(`remaining = max_depth - segments.len()` is the loop bound). -/
def collect_chain_go (segments : List Str) (current : JsonValue) (remaining : Nat) :
    List Str × JsonValue :=
  match remaining, current with
  | rem + 1, .object [(next_key, next_value)] =>
    collect_chain_go (segments ++ [next_key]) next_value rem
  | _, _ => (segments, current)

/-- `collect_single_key_chain`. -/
def collect_single_key_chain (start_key : Str) (start_value : JsonValue)
    (max_depth : Nat) : List Str × Option JsonValue × JsonValue :=
  let (segments, current) := collect_chain_go [start_key] start_value (max_depth - 1)
  match current with
  | .object [] => (segments, none, .object [])
  | .object entries => (segments, some (.object entries), .object entries)
  | other => (segments, none, other)

/-- Join segments with dots. -/
def joinDots (segments : List Str) : Str :=
  match segments with
  | [] => []
  | seg :: rest => seg ++ (rest.map fun s => DOT :: s).flatten

/-- `try_fold_key_chain`. -/
def try_fold_key_chain (key : Str) (value : JsonValue) (siblings : List Str)
    (options : ResolvedEncodeOptions) (root_literal_keys : Option (List Str))
    (parent_path : Option Str) (flatten_depth : Nat) : Option FoldResult :=
  if options.key_folding ≠ KeyFoldingMode.safe then none
  else if !is_json_object value then none
  else if flatten_depth < 2 then none
  else
    let (segments, tail, leaf_value) := collect_single_key_chain key value flatten_depth
    if segments.length < 2 then none
    else if !segments.all is_identifier_segment then none
    else
      let folded_key := joinDots segments
      if siblings.contains folded_key then none
      else
        let absolute_path := match parent_path with
          | some pre => pre ++ DOT :: folded_key
          | none => folded_key
        let blocked := match root_literal_keys with
          | some root_keys => root_keys.contains absolute_path
          | none => false
        if blocked then none
        else some ⟨folded_key, tail, leaf_value, segments.length⟩

/-! ### `encode/encoders.rs`

The mutually recursive encoder carries a fuel parameter like the decoder;
the `expect`/`panic!` calls inside `write_tabular_rows_lines` are modelled
by the distinguished outcome `EncRes.panicked`, and fuel exhaustion by
`EncRes.noFuel` (an embedding artefact, never identified with a panic). -/

/-- Result of a fueled encoder step. -/
inductive EncRes (α : Type) where
  | ok (a : α)
  | panicked
  | noFuel
  deriving DecidableEq, Repr

instance : Monad EncRes where
  pure := .ok
  bind x f := match x with
    | .ok a => f a
    | .panicked => .panicked
    | .noFuel => .noFuel

/-- `object_get`. -/
def object_get (entries : List (Str × JsonValue)) (key : Str) : Option JsonValue :=
  (entries.find? fun e => e.1 = key).map fun e => e.2

/-- `indented_line`. -/
def indented_line (depth : Nat) (content : Str) (indent_size : Nat) : Str :=
  List.replicate (indent_size * depth) ' ' ++ content

/-- `indented_list_item`. -/
def indented_list_item (depth : Nat) (content : Str) (indent_size : Nat) : Str :=
  indented_line depth (listItemPrefixStr ++ content) indent_size

/-- `is_tabular_array`: every row is an object with exactly the header's
entry count, holding a primitive under every header key. -/
def is_tabular_array (rows : List JsonValue) (header : List Str) : Bool :=
  rows.all fun row =>
    match row with
    | .object entries =>
      entries.length = header.length &&
      header.all fun key =>
        match object_get entries key with
        | some value => is_json_primitive value
        | none => false
    | _ => false

/-- `extract_tabular_header`: the first row's keys, when every row
matches them. -/
def extract_tabular_header (rows : List JsonValue) : Option (List Str) :=
  match rows with
  | [] => none
  | first :: _ =>
    match first with
    | .object firstEntries =>
      if firstEntries.isEmpty then none
      else
        let header := firstEntries.map fun e => e.1
        if is_tabular_array rows header then some header else none
    | _ => none

/-- One row of `write_tabular_rows_lines`: the header values of the row,
`none` when the `expect` or the non-primitive `panic!` would fire. -/
def tabular_row_values (entries : List (Str × JsonValue)) :
    List Str → Option (List JsonPrim)
  | [] => some []
  | key :: keys =>
    match object_get entries key with
    | none => none
    | some value =>
      match value with
      | .primitive primitive =>
        match tabular_row_values entries keys with
        | some rest => some (primitive :: rest)
        | none => none
      | _ => none

/-- `write_tabular_rows_lines` (`none` models the panic; non-object rows
are skipped by the `if let`, as in the source). -/
def write_tabular_rows_lines (rows : List JsonValue) (header : List Str)
    (depth : Nat) (options : ResolvedEncodeOptions) : Option (List Str)  :=
  match rows with
  | [] => some []
  | row :: rest =>
    match row with
    | .object entries =>
      match tabular_row_values entries header with
      | none => none
      | some values =>
        let joined := encode_and_join_primitives values options.delimiter
        match write_tabular_rows_lines rest header depth options with
        | none => none
        | some lines => some (indented_line depth joined options.indent :: lines)
    | _ => write_tabular_rows_lines rest header depth options

/-- `encode_inline_array_line`. -/
def encode_inline_array_line (values : List JsonValue) (delimiter : Char)
    (key : Option Str) : Str :=
  let primitives := values.filterMap fun item =>
    match item with
    | .primitive primitive => some primitive
    | _ => none
  let header := format_header values.length key none delimiter
  if primitives.isEmpty then header
  else header ++ [' '] ++ encode_and_join_primitives primitives delimiter

/-- `encode_array_of_arrays_as_list_items_lines`. -/
def encode_array_of_arrays_as_list_items_lines (key : Option Str)
    (values : List JsonValue) (depth : Nat) (options : ResolvedEncodeOptions) :
    List Str :=
  indented_line depth (format_header values.length key none options.delimiter)
    options.indent ::
  values.filterMap fun item =>
    match item with
    | .array items =>
      some (indented_list_item (depth + 1)
        (encode_inline_array_line items options.delimiter none) options.indent)
    | _ => none

mutual

/-- `encode_object_lines`: seed the root literal-key set at depth 0, then
encode every entry. -/
def encode_object_lines (fuel : Nat) (value : List (Str × JsonValue)) (depth : Nat)
    (options : ResolvedEncodeOptions) (root_literal_keys : Option (List Str))
    (parent_path : Option Str) (remaining_depth : Option Nat) : EncRes (List Str) :=
  match fuel with
  | 0 => .noFuel
  | fuel + 1 =>
    let keys := value.map fun e => e.1
    let root_literal_keys :=
      if depth = 0 && root_literal_keys.isNone then
        some (keys.filter fun key => strContainsChar key DOT)
      else root_literal_keys
    let effective_flatten_depth := remaining_depth.getD options.flatten_depth
    encode_entries_loop fuel value depth options keys root_literal_keys parent_path
      effective_flatten_depth
termination_by structural fuel

/-- Entry loop of `encode_object_lines`. -/
def encode_entries_loop (fuel : Nat) (entries : List (Str × JsonValue)) (depth : Nat)
    (options : ResolvedEncodeOptions) (siblings : List Str)
    (root_literal_keys : Option (List Str)) (parent_path : Option Str)
    (flatten_depth : Nat) : EncRes (List Str) :=
  match fuel with
  | 0 => .noFuel
  | fuel + 1 =>
    match entries with
    | [] => pure []
    | (key, val) :: rest => do
      let lines1 ← encode_key_value_pair_lines fuel key val depth options siblings
        root_literal_keys parent_path flatten_depth
      let lines2 ← encode_entries_loop fuel rest depth options siblings
        root_literal_keys parent_path flatten_depth
      pure (lines1 ++ lines2)
termination_by structural fuel

/-- `encode_key_value_pair_lines`, folded path. -/
def encode_key_value_pair_lines (fuel : Nat) (key : Str) (value : JsonValue)
    (depth : Nat) (options : ResolvedEncodeOptions) (siblings : List Str)
    (root_literal_keys : Option (List Str)) (parent_path : Option Str)
    (flatten_depth : Nat) : EncRes (List Str) :=
  match fuel with
  | 0 => .noFuel
  | fuel + 1 =>
    match try_fold_key_chain key value siblings options root_literal_keys
        parent_path flatten_depth with
    | some folded =>
      let encoded_key := encode_key folded.folded_key
      match folded.remainder, folded.leaf_value with
      | none, .primitive primitive =>
        pure [indented_line depth
          (encoded_key ++ ':' :: ' ' :: encode_primitive primitive options.delimiter)
          options.indent]
      | none, .array items =>
        encode_array_lines fuel (some folded.folded_key) items depth options
      | none, .object entries =>
        if entries.isEmpty then
          pure [indented_line depth (encoded_key ++ [':']) options.indent]
        else
          encode_unfolded_pair fuel key value depth options root_literal_keys
            parent_path flatten_depth
      | some rem, _ =>
        match rem with
        | .object entries => do
          let head := indented_line depth (encoded_key ++ [':']) options.indent
          let remaining_depth := flatten_depth - folded.segment_count
          let folded_path := match parent_path with
            | some pre => pre ++ DOT :: folded.folded_key
            | none => folded.folded_key
          let body ← encode_object_lines fuel entries (depth + 1) options
            root_literal_keys (some folded_path) (some remaining_depth)
          pure (head :: body)
        | _ =>
          encode_unfolded_pair fuel key value depth options root_literal_keys
            parent_path flatten_depth
    | none =>
      encode_unfolded_pair fuel key value depth options root_literal_keys
        parent_path flatten_depth
termination_by structural fuel

/-- `encode_key_value_pair_lines`, unfolded tail. -/
def encode_unfolded_pair (fuel : Nat) (key : Str) (value : JsonValue) (depth : Nat)
    (options : ResolvedEncodeOptions) (root_literal_keys : Option (List Str))
    (parent_path : Option Str) (flatten_depth : Nat) : EncRes (List Str) :=
  match fuel with
  | 0 => .noFuel
  | fuel + 1 =>
    let current_path := match parent_path with
      | some pre => pre ++ DOT :: key
      | none => key
    let encoded_key := encode_key key
    match value with
    | .primitive primitive =>
      pure [indented_line depth
        (encoded_key ++ ':' :: ' ' :: encode_primitive primitive options.delimiter)
        options.indent]
    | .array items => encode_array_lines fuel (some key) items depth options
    | .object entries => do
      let head := indented_line depth (encoded_key ++ [':']) options.indent
      if is_empty_object entries then pure [head]
      else do
        let body ← encode_object_lines fuel entries (depth + 1) options
          root_literal_keys (some current_path) (some flatten_depth)
        pure (head :: body)
termination_by structural fuel

/-- `encode_array_lines`: shape dispatch (empty, inline primitives,
arrays-of-primitive-arrays, tabular, mixed list). -/
def encode_array_lines (fuel : Nat) (key : Option Str) (value : List JsonValue)
    (depth : Nat) (options : ResolvedEncodeOptions) : EncRes (List Str) :=
  match fuel with
  | 0 => .noFuel
  | fuel + 1 =>
    if value.isEmpty then
      pure [indented_line depth (format_header 0 key none options.delimiter)
        options.indent]
    else if is_array_of_primitives value then
      pure [indented_line depth
        (encode_inline_array_line value options.delimiter key) options.indent]
    else if is_array_of_arrays value &&
        (value.all fun item => match item with
          | .array items => is_array_of_primitives items
          | _ => false) then
      pure (encode_array_of_arrays_as_list_items_lines key value depth options)
    else if is_array_of_objects value then
      match extract_tabular_header value with
      | some header =>
        let formatted_header :=
          format_header value.length key (some header) options.delimiter
        match write_tabular_rows_lines value header (depth + 1) options with
        | none => .panicked
        | some rows => pure (indented_line depth formatted_header options.indent :: rows)
      | none => encode_mixed_array_as_list_items_lines fuel key value depth options
    else encode_mixed_array_as_list_items_lines fuel key value depth options
termination_by structural fuel

/-- `encode_mixed_array_as_list_items_lines`. -/
def encode_mixed_array_as_list_items_lines (fuel : Nat) (key : Option Str)
    (items : List JsonValue) (depth : Nat) (options : ResolvedEncodeOptions) :
    EncRes (List Str) :=
  match fuel with
  | 0 => .noFuel
  | fuel + 1 => do
    let header := format_header items.length key none options.delimiter
    let body ← encode_items_loop fuel items (depth + 1) options
    pure (indented_line depth header options.indent :: body)
termination_by structural fuel

/-- Item loop of the mixed-array and nested-list encoders. -/
def encode_items_loop (fuel : Nat) (items : List JsonValue) (depth : Nat)
    (options : ResolvedEncodeOptions) : EncRes (List Str) :=
  match fuel with
  | 0 => .noFuel
  | fuel + 1 =>
    match items with
    | [] => pure []
    | item :: rest => do
      let lines1 ← encode_list_item_value_lines fuel item depth options
      let lines2 ← encode_items_loop fuel rest depth options
      pure (lines1 ++ lines2)
termination_by structural fuel

/-- `encode_list_item_value_lines`. -/
def encode_list_item_value_lines (fuel : Nat) (value : JsonValue) (depth : Nat)
    (options : ResolvedEncodeOptions) : EncRes (List Str) :=
  match fuel with
  | 0 => .noFuel
  | fuel + 1 =>
    match value with
    | .primitive primitive =>
      pure [indented_list_item depth (encode_primitive primitive options.delimiter)
        options.indent]
    | .array items =>
      if is_array_of_primitives items then
        pure [indented_list_item depth
          (encode_inline_array_line items options.delimiter none) options.indent]
      else do
        let header := format_header items.length none none options.delimiter
        let body ← encode_items_loop fuel items (depth + 1) options
        pure (indented_list_item depth header options.indent :: body)
    | .object entries => encode_object_as_list_item_lines fuel entries depth options
termination_by structural fuel

/-- `encode_object_as_list_item_lines`: first entry on the `- ` line,
remaining entries one level deeper.  The tabular-first-value special case
is checked up front, as in the source's `if let` chain. -/
def encode_object_as_list_item_lines (fuel : Nat) (obj : List (Str × JsonValue))
    (depth : Nat) (options : ResolvedEncodeOptions) : EncRes (List Str) :=
  match fuel with
  | 0 => .noFuel
  | fuel + 1 =>
    match obj with
    | [] => pure [indented_line depth LIST_ITEM_MARKER options.indent]
    | (first_key, first_value) :: rest =>
      match first_value with
      | .array items =>
        if is_array_of_objects items then
          match extract_tabular_header items with
          | some header =>
            let formatted := format_header items.length (some first_key) (some header)
              options.delimiter
            match write_tabular_rows_lines items header (depth + 2) options with
            | none => .panicked
            | some rows => do
              let restLines ←
                if !rest.isEmpty then
                  encode_object_lines fuel rest (depth + 1) options none none none
                else pure []
              pure (indented_list_item depth formatted options.indent :: rows ++
                restLines)
          | none =>
            encode_object_as_list_item_rest fuel first_key first_value rest depth options
        else
          encode_object_as_list_item_rest fuel first_key first_value rest depth options
      | _ =>
        encode_object_as_list_item_rest fuel first_key first_value rest depth options
termination_by structural fuel

/-- Tail of `encode_object_as_list_item_lines` past the tabular special
case. -/
def encode_object_as_list_item_rest (fuel : Nat) (first_key : Str)
    (first_value : JsonValue) (rest : List (Str × JsonValue)) (depth : Nat)
    (options : ResolvedEncodeOptions) : EncRes (List Str) :=
  match fuel with
  | 0 => .noFuel
  | fuel + 1 => do
    let encoded_key := encode_key first_key
    let firstLines ← (match first_value with
      | .primitive primitive =>
        pure [indented_list_item depth
          (encoded_key ++ ':' :: ' ' :: encode_primitive primitive options.delimiter)
          options.indent]
      | .array items =>
        if items.isEmpty then
          pure [indented_list_item depth
            (encoded_key ++ format_header 0 none none options.delimiter)
            options.indent]
        else if is_array_of_primitives items then
          pure [indented_list_item depth
            (encoded_key ++ encode_inline_array_line items options.delimiter none)
            options.indent]
        else do
          let header := format_header items.length none none options.delimiter
          let body ← encode_items_loop fuel items (depth + 2) options
          pure (indented_list_item depth (encoded_key ++ header)
            options.indent :: body)
      | .object entries => do
        let head := indented_list_item depth (encoded_key ++ [':']) options.indent
        if !is_empty_object entries then do
          let body ← encode_object_lines fuel entries (depth + 2) options
            none none none
          pure (head :: body)
        else pure [head] : EncRes (List Str))
    let restLines ←
      if !rest.isEmpty then
        encode_object_lines fuel rest (depth + 1) options none none none
      else pure []
    pure (firstLines ++ restLines)
termination_by structural fuel

end

/-! ### `encode/mod.rs` -/

/-- `encode_json_value` (`encoders.rs` entry point). -/
def encode_json_value (fuel : Nat) (value : JsonValue)
    (options : ResolvedEncodeOptions) : EncRes (List Str) :=
  match value with
  | .primitive primitive =>
    let encoded := encode_primitive primitive options.delimiter
    pure (if encoded.isEmpty then [] else [encoded])
  | .array items => encode_array_lines fuel none items 0 options
  | .object entries => encode_object_lines fuel entries 0 options none none none

/-- `encode_lines` (no replacer supplied). -/
def encode_lines (fuel : Nat) (input : JsonValue) (options : Option EncodeOptions) :
    EncRes (List Str) :=
  let resolved := resolve_encode_options options
  let normalized := normalize_json_value input
  encode_json_value fuel normalized resolved

/-- Join lines with newlines (`Vec::join("\n")`). -/
def joinLines (lines : List Str) : Str :=
  match lines with
  | [] => []
  | line :: rest => line ++ (rest.map fun l => '\n' :: l).flatten

/-- `encode` (no replacer supplied). -/
def encode (fuel : Nat) (input : JsonValue) (options : Option EncodeOptions) :
    EncRes Str := do
  let lines ← encode_lines fuel input options
  pure (joinLines lines)

mutual

/-- `emit_events`. -/
def emit_events : JsonValue → List JsonStreamEvent
  | .primitive p => [.primitive p]
  | .array arr => .startArray arr.length :: emit_events_items arr ++ [.endArray]
  | .object obj => .startObject :: emit_events_entries obj ++ [.endObject]

/-- `emit_events` over array elements. -/
def emit_events_items : List JsonValue → List JsonStreamEvent
  | [] => []
  | x :: xs => emit_events x ++ emit_events_items xs

/-- `emit_events` over object entries (`was_quoted` is recomputed from
the key's shape). -/
def emit_events_entries : List (Str × JsonValue) → List JsonStreamEvent
  | [] => []
  | (key, val) :: rest =>
    JsonStreamEvent.key key (!is_valid_unquoted_key key) ::
    emit_events val ++ emit_events_entries rest

end

/-- `encode_stream_events` (no replacer supplied). -/
def encode_stream_events (input : JsonValue) (_options : Option EncodeOptions) :
    List JsonStreamEvent :=
  let normalized := normalize_json_value input
  emit_events normalized

/-! ### Concrete claim inputs -/

/-- Round-trip failing input: an object whose string value looks like an
inline array header once quoted. -/
def c1Input : JsonValue := .object [(("a".data), .primitive (.str ("[1]: y".data)))]

/-- The TOON text the encoder produces for `c1Input`. -/
def c1Text : Str := ("a: \"[1]: y\"".data)

/-- What the decoder actually returns for `c1Text`: the bracket inside the
quoted value is mistaken for an array header. -/
def c1Decoded : JsonValue :=
  .object [(("a: \"".data), .array [.primitive (.str ("y\"".data))])]

/-- Fold/expand failing input: a single-child identifier-key chain whose
leaf string looks like an inline array header once quoted. -/
def c3Input : JsonValue :=
  .object [(("a".data), .object [(("b".data), .primitive (.str ("[1]: y".data)))])]

/-- The TOON text the encoder with `keyFolding = safe` produces for
`c3Input`: the chain folds to the dotted key `a.b`. -/
def c3Text : Str := ("a.b: \"[1]: y\"".data)

/-- What the decoder with `expandPaths = safe` actually returns for
`c3Text`: the bracket inside the quoted value is mistaken for an array
header, and the mangled key `a.b: "` is not expandable. -/
def c3Decoded : JsonValue :=
  .object [(("a.b: \"".data), .array [.primitive (.str ("y\"".data))])]

/-- Event-agreement failing input: an array value under a key that must be
quoted. -/
def c2Input : JsonValue := .object [(("a b".data), .array [.primitive (.bool true)])]

/-- The TOON text the encoder produces for `c2Input`. -/
def c2Text : Str := ("\"a b\"[1]: true".data)

/-- Events produced by the decoder from `c2Text`: the array-header path
hard-codes `was_quoted := false`. -/
def c2DecoderEvents : List JsonStreamEvent :=
  [.startObject, .key ("a b".data) false, .startArray 1,
   .primitive (.bool true), .endArray, .endObject]

/-- Events produced by `encode_stream_events` directly from `c2Input`:
`was_quoted` is recomputed as `!is_valid_unquoted_key`, which is `true`
for `"a b"`. -/
def c2EncoderEvents : List JsonStreamEvent :=
  [.startObject, .key ("a b".data) true, .startArray 1,
   .primitive (.bool true), .endArray, .endObject]

/-! ### Spec-side definitions (each written from the specification's
words, to be compared with the definitions translated from the source) -/

/-- Spec §4.4 (lenient tabular rows): one `Key` per header field in header
order, each paired with the row's primitive at that position, `Null` once
the row runs out of values. -/
def rowPairEvents : List Str → List JsonPrim → List JsonStreamEvent
  | [], _ => []
  | field :: rest, primitives =>
    JsonStreamEvent.key field false ::
    JsonStreamEvent.primitive (primitives.headD .null) ::
    rowPairEvents rest primitives.tail

/-- Spec §4.7: an entry is expanded exactly when its key contains a dot,
was not originally quoted, and every dot-separated segment is a valid bare
identifier. -/
def specExpandCond (key : Str) (quoted_keys : List Str) : Bool :=
  strContainsChar key DOT && !quoted_keys.contains key &&
  (splitOnChar DOT key).all is_identifier_segment

/-- Spec §4.7: the nested path built from the key's segments, creating
intermediate objects. -/
def specNestedPath : List Str → NodeValue → List (Str × NodeValue)
  | [], _ => []
  | [seg], value => [(seg, value)]
  | seg :: rest, value => [(seg, .object (specNestedPath rest value) [])]

/-- Spec §4.1: the leading run of space characters, counted as `indent`. -/
def specIndentOf (raw : Str) : Nat := (raw.takeWhile fun c => c = ' ').length

/-- Spec §4.1: a line whose remaining content after the leading spaces is
all whitespace is blank. -/
def specIsBlankLine (raw : Str) : Bool :=
  (raw.drop (specIndentOf raw)).all rustIsWhitespace

/-- Spec §4.1: a tab character anywhere in the line's leading whitespace
(spaces and tabs). -/
def specLeadingWsHasTab (raw : Str) : Bool :=
  strContainsChar (raw.takeWhile fun c => c = ' ' || c = '\t') '\t'

/-- Spec §4.1: `indent` not an exact multiple of `indentSize` when
`indentSize > 0`, or any positive indent when `indentSize == 0`. -/
def specBadIndent (raw : Str) (indent_size : Nat) : Bool :=
  if indent_size = 0 then decide (0 < specIndentOf raw)
  else decide (0 < specIndentOf raw) && decide (specIndentOf raw % indent_size ≠ 0)

/-- Spec §4.3 helper: skip a run of ASCII digits. -/
def specSkipDigits : Str → Str
  | [] => []
  | c :: rest => if c.isDigit then specSkipDigits rest else c :: rest

/-- Spec §4.3 helper: consume at least one ASCII digit. -/
def specDigitRun : Str → Option Str
  | [] => none
  | c :: rest => if c.isDigit then some (specSkipDigits rest) else none

/-- Spec §4.3: the integer part — `0` alone, or a nonzero digit followed
by a digit run ("no leading zero unless the integer part is exactly 0"). -/
def specIntPart : Str → Option Str
  | '0' :: rest =>
    (match rest with
     | c :: _ => if c.isDigit then none else some rest
     | [] => some [])
  | c :: rest => if c.isDigit then some (specSkipDigits rest) else none
  | [] => none

/-- Spec §4.3: optional `.` followed by at least one digit. -/
def specFracPart : Str → Option Str
  | '.' :: rest => specDigitRun rest
  | other => some other

/-- Spec §4.3 helper: optional sign, then at least one digit. -/
def specSignedDigits : Str → Option Str
  | '+' :: rest => specDigitRun rest
  | '-' :: rest => specDigitRun rest
  | rest => specDigitRun rest

/-- Spec §4.3: optional `e`/`E` exponent with optional sign and at least
one digit. -/
def specExpPart : Str → Option Str
  | 'e' :: rest => specSignedDigits rest
  | 'E' :: rest => specSignedDigits rest
  | other => some other

/-- Spec §4.3: drop the optional leading minus sign. -/
def specStripMinus : Str → Str
  | '-' :: rest => rest
  | other => other

/-- Spec §4.3: the strict JSON-compatible numeric grammar (on an already
trimmed token): optional leading `-`, integer part, optional fraction,
optional exponent, nothing else. -/
def specNumericGrammar (token : Str) : Bool :=
  match specIntPart (specStripMinus token) with
  | none => false
  | some r1 =>
    match specFracPart r1 with
    | none => false
    | some r2 =>
      match specExpPart r2 with
      | none => false
      | some r3 => r3.isEmpty

/-- Spec §4.3: single-pass scan of a quoted string literal body (the text
after the opening quote): escapes limited to `\\ \" \n \r \t` (any other
escape is an error, `none`), terminated by an unescaped closing quote
(`none` when it never comes); returns the unescaped content and the text
after the closing quote. -/
def specQuotedScan : Str → Option (Str × Str)
  | [] => none
  | '\\' :: rest =>
    (match rest with
     | [] => none
     | next :: rest2 =>
       match escapeChar? next with
       | none => none
       | some c =>
         match specQuotedScan rest2 with
         | some (content, rest3) => some (c :: content, rest3)
         | none => none)
  | '"' :: rest => some ([], rest)
  | c :: rest =>
    match specQuotedScan rest with
    | some (content, rest3) => some (c :: content, rest3)
    | none => none

/-- Spec §4.3: the claimed token classification, in order — empty token,
quoted string (properly terminated, nothing after the closing quote,
five escapes only), `true`/`false`/`null`, numeric grammar (amended: the
token must also parse to a finite `f64`), bare string. -/
def specClassify (token : Str) : Except String JsonPrim :=
  let trimmed := trim token
  if trimmed.isEmpty then .ok (.str [])
  else if startsWithChar trimmed '"' then
    (match specQuotedScan (trimmed.drop 1) with
     | none => .error "malformed quoted string literal"
     | some (content, rest) =>
       if rest.isEmpty then .ok (.str content)
       else .error "characters after the closing quote")
  else if trimmed = TRUE_LITERAL then .ok (.bool true)
  else if trimmed = FALSE_LITERAL then .ok (.bool false)
  else if trimmed = NULL_LITERAL then .ok .null
  else if specNumericGrammar trimmed && f64IsFinite (numParse trimmed) then
    .ok (.num (numParse trimmed))
  else .ok (.str trimmed)

/-- Two fallible classifications agree when both fail or both succeed
with the same value (error messages are not compared). -/
def exceptAgrees {α : Type} : Except String α → Except String α → Prop
  | .error _, .error _ => True
  | .ok a, .ok b => a = b
  | _, _ => False

/-- Spec (TOON grammar): the unquoted identifier-like key form
`[A-Za-z_][A-Za-z0-9_.]*`. -/
def specIdentLike : Str → Bool
  | [] => false
  | c :: rest =>
    (('A' ≤ c && c ≤ 'Z') || ('a' ≤ c && c ≤ 'z') || c = '_') &&
    rest.all (fun x =>
      ('A' ≤ x && x ≤ 'Z') || ('a' ≤ x && x ≤ 'z') || ('0' ≤ x && x ≤ '9') ||
      x = '_' || x = '.')

/-- Spec §4.2: one FIELD of the brace block — a bare identifier-like
token or a double-quoted escaped string. -/
def specField (f : Str) : Bool :=
  match trim f with
  | '"' :: body =>
    (match specQuotedScan body with
     | some (_, rest) => rest.isEmpty
     | none => false)
  | other => specIdentLike other

/-- Spec §4.2: the text after the closing bracket — an optional brace
block with at least one FIELD, then the header colon with arbitrary
INLINE remainder. -/
def specBraceColon : Str → Bool
  | ':' :: _ => true
  | '\x7b' :: r =>
    (match strFind r '\x7d' with
     | none => false
     | some j =>
       (match r.drop (j + 1) with
        | ':' :: _ => true
        | _ => false) &&
       !(r.take j).isEmpty &&
       (splitOnChar ',' (r.take j)).all specField)
  | _ => false

/-- Spec §4.2: the text after the opening bracket — LENGTH (one or more
digits) with an optional single tab or pipe delimiter override, the
closing bracket, then the brace/colon tail. -/
def specAfterBracket (r : Str) : Bool :=
  let digits := r.takeWhile (fun c => c.isDigit)
  let r1 := r.dropWhile (fun c => c.isDigit)
  if digits.isEmpty then false
  else
    match r1 with
    | ']' :: r3 => specBraceColon r3
    | '\t' :: ']' :: r3 => specBraceColon r3
    | '|' :: ']' :: r3 => specBraceColon r3
    | _ => false

/-- Spec §4.2: the array-header grammar
`["key"|key]?[LENGTH[DELIM]]{FIELD(,FIELD)*}?:INLINE?`. -/
def specArrayHeaderGrammar (line : Str) : Bool :=
  match line with
  | '"' :: body =>
    (match specQuotedScan body with
     | some (_, rest) =>
       (match rest with
        | '[' :: r => specAfterBracket r
        | _ => false)
     | none => false)
  | _ =>
    match strFind line '[' with
    | none => false
    | some i =>
      ((line.take i).isEmpty || specIdentLike (line.take i)) &&
      specAfterBracket (line.drop (i + 1))

end Toon

/-! ## Theorems settling the claims -/

namespace Toon

set_option maxRecDepth 200000

/-- C1: the spec's round-trip claim — decoding the default-options
encoding of any `JsonValue` free of non-finite numbers yields
`normalize_json_value` of the input — fails on the code: for
`{"a": "[1]: y"}` the encoder emits `a: "[1]: y"`, and the decoder's
key/value dispatch finds the `[` inside the quoted *value* (only quoted
keys are shielded from the bracket search), misparses the line as the
array header `a: "` `[1]:` with inline payload `y"`, and returns
`{"a: \"": ["y\""]}` instead of the original object.  The theorem
evaluates the embedded pipeline at this failing input. -/
theorem c1_round_trip_fails_on_quoted_bracket_value :
    encode 99 c1Input none = .ok c1Text ∧
    try_decode 99 c1Text none = .ok c1Decoded ∧
    c1Decoded ≠ normalize_json_value c1Input := by
  refine ⟨rfl, rfl, ?_⟩
  simp [c1Decoded, c1Input, normalize_json_value, normalize_entries,
    normalize_json_value, normalize_primitive]

/-- C2: the claimed bit-for-bit agreement between
`encode_stream_events` and `decode_stream_sync` over the encoded text
fails for `{"a b": [true]}`: the text is `"a b"[1]: true`, the decoder's
array-header path emits `Key "a b"` with `was_quoted := false`, while the
encoder emits `was_quoted := true` (recomputed as
`!is_valid_unquoted_key`).  This contradicts the doc comment on
`encode_stream_events` in the source. -/
theorem c2_event_streams_disagree_on_quoted_array_key :
    encode 99 c2Input none = .ok c2Text ∧
    decode_stream_sync 99 (splitOnChar '\n' c2Text) none = .ok c2DecoderEvents ∧
    encode_stream_events c2Input none = c2EncoderEvents ∧
    c2DecoderEvents ≠ c2EncoderEvents := by
  refine ⟨rfl, rfl, rfl, ?_⟩
  decide

/-- Helper: the enumerated row construction of `yield_object_from_fields`
coincides with the positional description `rowPairEvents`. -/
theorem yield_row_aux (fs : List Str) (ps : List JsonPrim) (k : Nat) :
    ((fs.enumFrom k).map fun p =>
      [JsonStreamEvent.key p.2 false,
       match ps.get? p.1 with
       | some value => JsonStreamEvent.primitive value
       | none => JsonStreamEvent.primitive .null]).flatten
    = rowPairEvents fs (ps.drop k) := by
  induction fs generalizing k with
  | nil => simp [rowPairEvents]
  | cons f fs ih =>
    have h1 : (match ps.get? k with
        | some value => JsonStreamEvent.primitive value
        | none => JsonStreamEvent.primitive .null) =
        JsonStreamEvent.primitive ((ps.drop k).headD .null) := by
      rw [List.headD_eq_head?, List.head?_drop, ← List.get?_eq_getElem?]
      cases ps.get? k <;> rfl
    simp only [List.enumFrom_cons, List.map_cons, List.flatten_cons, rowPairEvents,
      ih (k + 1), List.tail_drop, h1]
    rfl

/-- Helper: splitting a string never yields an empty segment list. -/
theorem splitOnChar_ne_nil (c : Char) (s : Str) : splitOnChar c s ≠ [] := by
  cases s with
  | nil => simp [splitOnChar]
  | cons x rest =>
    simp only [splitOnChar]
    split
    · simp
    · split <;> simp

/-- Helper: inserting a nonempty segment path into fresh entries builds
exactly the nested chain described by the spec. -/
theorem insert_path_entries_nil (segments : List Str) (v : NodeValue) (strict : Bool)
    (h : segments ≠ []) :
    insert_path_entries [] segments v strict = .ok (specNestedPath segments v) := by
  induction segments with
  | nil => exact absurd rfl h
  | cons seg rest ih =>
    cases rest with
    | nil =>
      simp [insert_path_entries, insert_literal_entry, find_entry_index, specNestedPath]
    | cons seg2 rest2 =>
      simp [insert_path_entries, find_entry_index, specNestedPath,
        ih (by simp)]

/-- Helper: a string trims to empty exactly when it is all whitespace. -/
theorem trim_isEmpty_iff (s : Str) :
    (trim s).isEmpty = true ↔ (∀ x ∈ s, rustIsWhitespace x = true) := by
  constructor
  · intro h x hx
    rw [List.isEmpty_iff] at h
    unfold trim trimEnd trimStart at h
    have h2 := List.reverse_eq_nil_iff.mp h
    rw [List.dropWhile_eq_nil_iff] at h2
    rcases (List.mem_append.mp
      ((List.takeWhile_append_dropWhile rustIsWhitespace s ▸ hx : _))) with h3 | h3
    · exact List.mem_takeWhile_imp h3
    · exact h2 x (List.mem_reverse.mpr h3)
  · intro h
    rw [List.isEmpty_iff]
    unfold trim trimEnd trimStart
    rw [List.reverse_eq_nil_iff, List.dropWhile_eq_nil_iff]
    intro x hx
    rw [List.mem_reverse] at hx
    exact h x ((List.dropWhile_sublist _).mem hx)

/-- Helper: the scanner's blank test coincides with the spec predicate. -/
theorem scanner_blank_test (raw : Str) :
    (trim (raw.drop (specIndentOf raw))).isEmpty = specIsBlankLine raw := by
  cases hb : specIsBlankLine raw with
  | true =>
    have hb2 : ∀ x ∈ raw.drop (specIndentOf raw), rustIsWhitespace x = true := by
      have h3 := hb
      unfold specIsBlankLine at h3
      exact List.all_eq_true.mp h3
    exact (trim_isEmpty_iff _).mpr hb2
  | false =>
    refine Bool.eq_false_iff.mpr fun h2 => ?_
    have h3 := (trim_isEmpty_iff _).mp h2
    have h4 : specIsBlankLine raw = true := by
      unfold specIsBlankLine
      exact List.all_eq_true.mpr h3
    rw [hb] at h4
    exact Bool.false_ne_true h4

/-- Helper: a bind of encoder steps panics only if one side panics. -/
theorem EncRes.bind_ne_panicked {α β : Type} {x : EncRes α} {f : α → EncRes β}
    (hx : x ≠ .panicked) (hf : ∀ a, f a ≠ .panicked) :
    (x >>= f) ≠ EncRes.panicked := by
  cases x with
  | ok a => exact hf a
  | panicked => exact absurd rfl hx
  | noFuel => intro h; exact EncRes.noConfusion h

/-- Helper: a pure encoder step never panics. -/
theorem EncRes.ok_ne_panicked {α : Type} (a : α) :
    (pure a : EncRes α) ≠ EncRes.panicked := by
  intro h; exact EncRes.noConfusion h

/-- Helper: fuel exhaustion is not a panic. -/
theorem EncRes.noFuel_ne_panicked {α : Type} :
    (EncRes.noFuel : EncRes α) ≠ EncRes.panicked := by
  intro h; exact EncRes.noConfusion h

/-- Helper: when every header key of a row holds a primitive, the row's
values are all found. -/
theorem tabular_row_values_of_checked (entries : List (Str × JsonValue)) :
    ∀ header : List Str,
    (header.all fun key =>
      match object_get entries key with
      | some value => is_json_primitive value
      | none => false) = true →
    ∃ values, tabular_row_values entries header = some values := by
  intro header
  induction header with
  | nil => exact fun _ => ⟨[], rfl⟩
  | cons key keys ih =>
    intro h
    rw [List.all_cons, Bool.and_eq_true] at h
    obtain ⟨hkey, hrest⟩ := h
    obtain ⟨values, hvalues⟩ := ih hrest
    cases hget : object_get entries key with
    | none => rw [hget] at hkey; exact absurd hkey (by simp)
    | some value =>
      rw [hget] at hkey
      cases value with
      | primitive p =>
        exact ⟨p :: values, by simp [tabular_row_values, hget, hvalues]⟩
      | array items => exact absurd hkey (by simp [is_json_primitive])
      | object entries2 => exact absurd hkey (by simp [is_json_primitive])

/-- Helper: `is_tabular_array` guarantees `write_tabular_rows_lines`
succeeds — the `expect` and the non-primitive `panic!` cannot fire. -/
theorem write_tabular_rows_of_tabular (rows : List JsonValue) (header : List Str)
    (depth : Nat) (options : ResolvedEncodeOptions)
    (h : is_tabular_array rows header = true) :
    ∃ lines, write_tabular_rows_lines rows header depth options = some lines := by
  induction rows with
  | nil => exact ⟨[], rfl⟩
  | cons row rest ih =>
    rw [is_tabular_array, List.all_cons, Bool.and_eq_true] at h
    obtain ⟨hrow, hrest⟩ := h
    have hrest2 : is_tabular_array rest header = true := hrest
    obtain ⟨lines, hlines⟩ := ih hrest2
    cases row with
    | primitive p => exact absurd hrow (by simp)
    | array items => exact absurd hrow (by simp)
    | object entries =>
      rw [Bool.and_eq_true] at hrow
      obtain ⟨values, hvalues⟩ := tabular_row_values_of_checked entries header hrow.2
      exact ⟨indented_line depth (encode_and_join_primitives values options.delimiter)
          options.indent :: lines,
        by simp [write_tabular_rows_lines, hvalues, hlines]⟩

/-- Helper: `extract_tabular_header` only returns headers that pass
`is_tabular_array`. -/
theorem extract_tabular_header_sound (rows : List JsonValue) (header : List Str)
    (h : extract_tabular_header rows = some header) :
    is_tabular_array rows header = true := by
  cases rows with
  | nil => exact absurd h (by simp [extract_tabular_header])
  | cons first rest =>
    cases first with
    | primitive p => exact absurd h (by simp [extract_tabular_header])
    | array items => exact absurd h (by simp [extract_tabular_header])
    | object firstEntries =>
      simp only [extract_tabular_header] at h
      by_cases he : firstEntries.isEmpty = true
      · rw [if_pos he] at h; exact absurd h (by simp)
      · rw [if_neg he] at h
        by_cases ht : is_tabular_array (JsonValue.object firstEntries :: rest)
            (firstEntries.map fun e => e.1) = true
        · rw [if_pos ht] at h
          cases h
          exact ht
        · rw [if_neg ht] at h; exact absurd h (by simp)

/-- Helper: no function of the mutual encoder block can reach the
`panicked` outcome, at any fuel: every call to `write_tabular_rows_lines`
is guarded by `extract_tabular_header`. -/
theorem encoder_no_panic (fuel : Nat) :
    (∀ value depth options rlk pp rd,
      encode_object_lines fuel value depth options rlk pp rd ≠ .panicked) ∧
    (∀ entries depth options siblings rlk pp fd,
      encode_entries_loop fuel entries depth options siblings rlk pp fd ≠ .panicked) ∧
    (∀ key value depth options siblings rlk pp fd,
      encode_key_value_pair_lines fuel key value depth options siblings rlk pp fd ≠
        .panicked) ∧
    (∀ key value depth options rlk pp fd,
      encode_unfolded_pair fuel key value depth options rlk pp fd ≠ .panicked) ∧
    (∀ key value depth options,
      encode_array_lines fuel key value depth options ≠ .panicked) ∧
    (∀ key items depth options,
      encode_mixed_array_as_list_items_lines fuel key items depth options ≠
        .panicked) ∧
    (∀ items depth options,
      encode_items_loop fuel items depth options ≠ .panicked) ∧
    (∀ value depth options,
      encode_list_item_value_lines fuel value depth options ≠ .panicked) ∧
    (∀ obj depth options,
      encode_object_as_list_item_lines fuel obj depth options ≠ .panicked) ∧
    (∀ first_key first_value rest depth options,
      encode_object_as_list_item_rest fuel first_key first_value rest depth options ≠
        .panicked) := by
  induction fuel with
  | zero =>
    exact ⟨fun _ _ _ _ _ _ => EncRes.noFuel_ne_panicked,
      fun _ _ _ _ _ _ _ => EncRes.noFuel_ne_panicked,
      fun _ _ _ _ _ _ _ _ => EncRes.noFuel_ne_panicked,
      fun _ _ _ _ _ _ _ => EncRes.noFuel_ne_panicked,
      fun _ _ _ _ => EncRes.noFuel_ne_panicked,
      fun _ _ _ _ => EncRes.noFuel_ne_panicked,
      fun _ _ _ => EncRes.noFuel_ne_panicked,
      fun _ _ _ => EncRes.noFuel_ne_panicked,
      fun _ _ _ => EncRes.noFuel_ne_panicked,
      fun _ _ _ _ _ => EncRes.noFuel_ne_panicked⟩
  | succ n ih =>
    obtain ⟨ih_obj, ih_loop, ih_pair, ih_unf, ih_arr, ih_mixed, ih_items,
      ih_item, ih_objitem, ih_objrest⟩ := ih
    refine ⟨?_, ?_, ?_, ?_, ?_, ?_, ?_, ?_, ?_, ?_⟩
    · intro value depth options rlk pp rd
      simp only [encode_object_lines]
      exact ih_loop _ _ _ _ _ _ _
    · intro entries depth options siblings rlk pp fd
      simp only [encode_entries_loop]
      cases entries with
      | nil => exact EncRes.ok_ne_panicked _
      | cons e rest =>
        exact EncRes.bind_ne_panicked (ih_pair _ _ _ _ _ _ _ _)
          fun _ => EncRes.bind_ne_panicked (ih_loop _ _ _ _ _ _ _)
            fun _ => EncRes.ok_ne_panicked _
    · intro key value depth options siblings rlk pp fd
      simp only [encode_key_value_pair_lines]
      split
      · split
        · exact EncRes.ok_ne_panicked _
        · exact ih_arr _ _ _ _
        · split
          · exact EncRes.ok_ne_panicked _
          · exact ih_unf _ _ _ _ _ _ _
        · split
          · exact EncRes.bind_ne_panicked (ih_obj _ _ _ _ _ _)
              fun _ => EncRes.ok_ne_panicked _
          · exact ih_unf _ _ _ _ _ _ _
      · exact ih_unf _ _ _ _ _ _ _
    · intro key value depth options rlk pp fd
      simp only [encode_unfolded_pair]
      split
      · exact EncRes.ok_ne_panicked _
      · exact ih_arr _ _ _ _
      · split
        · exact EncRes.ok_ne_panicked _
        · exact EncRes.bind_ne_panicked (ih_obj _ _ _ _ _ _)
            fun _ => EncRes.ok_ne_panicked _
    · intro key value depth options
      simp only [encode_array_lines]
      split
      · exact EncRes.ok_ne_panicked _
      · split
        · exact EncRes.ok_ne_panicked _
        · split
          · exact EncRes.ok_ne_panicked _
          · split
            · split
              · next header hext =>
                split
                · next hwrite =>
                  obtain ⟨lines, hl⟩ := write_tabular_rows_of_tabular value header
                    (depth + 1) options (extract_tabular_header_sound value header hext)
                  rw [hl] at hwrite
                  exact absurd hwrite (by simp)
                · exact EncRes.ok_ne_panicked _
              · exact ih_mixed _ _ _ _
            · exact ih_mixed _ _ _ _
    · intro key items depth options
      simp only [encode_mixed_array_as_list_items_lines]
      exact EncRes.bind_ne_panicked (ih_items _ _ _) fun _ => EncRes.ok_ne_panicked _
    · intro items depth options
      simp only [encode_items_loop]
      cases items with
      | nil => exact EncRes.ok_ne_panicked _
      | cons item rest =>
        exact EncRes.bind_ne_panicked (ih_item _ _ _)
          fun _ => EncRes.bind_ne_panicked (ih_items _ _ _)
            fun _ => EncRes.ok_ne_panicked _
    · intro value depth options
      simp only [encode_list_item_value_lines]
      split
      · exact EncRes.ok_ne_panicked _
      · split
        · exact EncRes.ok_ne_panicked _
        · exact EncRes.bind_ne_panicked (ih_items _ _ _)
            fun _ => EncRes.ok_ne_panicked _
      · exact ih_objitem _ _ _
    · intro obj depth options
      simp only [encode_object_as_list_item_lines]
      split
      · exact EncRes.ok_ne_panicked _
      · split
        · split
          · split
            · next header hext =>
              split
              · next hwrite =>
                obtain ⟨lines, hl⟩ := write_tabular_rows_of_tabular _ header
                  (depth + 2) options (extract_tabular_header_sound _ header hext)
                rw [hl] at hwrite
                exact absurd hwrite (by simp)
              · split
                · exact EncRes.bind_ne_panicked (ih_obj _ _ _ _ _ _)
                    fun _ => EncRes.ok_ne_panicked _
                · exact EncRes.bind_ne_panicked (EncRes.ok_ne_panicked _)
                    fun _ => EncRes.ok_ne_panicked _
            · exact ih_objrest _ _ _ _ _
          · exact ih_objrest _ _ _ _ _
        · exact ih_objrest _ _ _ _ _
    · intro first_key first_value rest depth options
      simp only [encode_object_as_list_item_rest]
      refine EncRes.bind_ne_panicked ?_ fun _ => ?_
      · split
        · exact EncRes.ok_ne_panicked _
        · split
          · exact EncRes.ok_ne_panicked _
          · split
            · exact EncRes.ok_ne_panicked _
            · exact EncRes.bind_ne_panicked (ih_items _ _ _)
                fun _ => EncRes.ok_ne_panicked _
        · split
          · exact EncRes.bind_ne_panicked (ih_obj _ _ _ _ _ _)
              fun _ => EncRes.ok_ne_panicked _
          · exact EncRes.ok_ne_panicked _
      · split
        · exact EncRes.bind_ne_panicked (ih_obj _ _ _ _ _ _)
            fun _ => EncRes.ok_ne_panicked _
        · exact EncRes.bind_ne_panicked (EncRes.ok_ne_panicked _)
            fun _ => EncRes.ok_ne_panicked _

/-- C4: decoding `items[3]: a,b` errors with `strict = true` and yields
`{"items": ["a", "b"]}` — exactly two elements, no padding — with
`strict = false`. -/
theorem c4_strict_inline_count_enforcement :
    (∃ e, try_decode 99 ("items[3]: a,b".data)
      (some ⟨none, some true, none⟩) = .err e) ∧
    try_decode 99 ("items[3]: a,b".data) (some ⟨none, some false, none⟩) =
      .ok (.object [(("items".data),
        .array [.primitive (.str ("a".data)), .primitive (.str ("b".data))])]) :=
  ⟨⟨_, rfl⟩, rfl⟩

/-- C6 (amended): line scanning records all-whitespace lines as blank with
no `ParsedLine` and no error — blankness takes precedence over the strict
checks — and on non-blank lines errors exactly when `strict` is set and
the leading whitespace contains a tab or the leading space count is not an
exact multiple of `indentSize` (any positive indent when `indentSize` is
0); otherwise it yields the `ParsedLine` whose depth is the indent divided
by `indentSize` (0 when `indentSize` is 0).  With `strict = false` no
indentation check is performed. -/
theorem c6_scanner_strict_and_blank_rules (raw : Str) (state : StreamingScanState)
    (indent_size : Nat) (strict : Bool) :
    (specIsBlankLine raw = true →
      parse_line_incremental raw state indent_size strict =
        .ok (none, ⟨state.line_number + 1,
          state.blank_lines ++ [⟨state.line_number + 1, specIndentOf raw,
            compute_depth_from_indent (specIndentOf raw) indent_size⟩]⟩)) ∧
    (specIsBlankLine raw = false →
      ((∃ e, parse_line_incremental raw state indent_size strict = .error e) ↔
        (strict = true ∧
          (specLeadingWsHasTab raw = true ∨ specBadIndent raw indent_size = true)))) ∧
    (specIsBlankLine raw = false →
      (strict = false ∨
        (specLeadingWsHasTab raw = false ∧ specBadIndent raw indent_size = false)) →
      parse_line_incremental raw state indent_size strict =
        .ok (some ⟨raw, specIndentOf raw, raw.drop (specIndentOf raw),
          (if indent_size = 0 then 0 else specIndentOf raw / indent_size),
          state.line_number + 1⟩,
          ⟨state.line_number + 1, state.blank_lines⟩)) := by
  have hind : (raw.takeWhile fun c => c = ' ').length = specIndentOf raw := rfl
  have htab : strContainsChar (raw.takeWhile fun c => c = ' ' || c = '\t') '\t' =
      specLeadingWsHasTab raw := rfl
  refine ⟨fun hb => ?_, fun hb => ?_, fun hb hok => ?_⟩
  · simp only [parse_line_incremental, hind, scanner_blank_test, hb, if_true]
  · simp only [parse_line_incremental, hind, scanner_blank_test, hb, htab,
      Bool.false_eq_true, if_false]
    cases strict with
    | false => simp
    | true =>
      simp only [if_true, true_and]
      cases ht : specLeadingWsHasTab raw with
      | true => simp
      | false =>
        simp only [Bool.false_eq_true, if_false, false_or]
        by_cases hz : indent_size = 0
        · by_cases hpos : 0 < specIndentOf raw
          · simp [hz, hpos, specBadIndent]
          · simp [hz, hpos, specBadIndent]
        · by_cases hbad : 0 < specIndentOf raw ∧ specIndentOf raw % indent_size ≠ 0
          · simp [hz, hbad.1, hbad.2, specBadIndent]
          · rw [Classical.not_and_iff_or_not_not] at hbad
            rcases hbad with hbad | hbad
            · have h0 : specIndentOf raw = 0 := by omega
              simp [hz, specBadIndent, h0]
            · rw [Classical.not_not] at hbad
              simp [hz, hbad, specBadIndent]
  · simp only [parse_line_incremental, hind, scanner_blank_test, hb, htab,
      Bool.false_eq_true, if_false, compute_depth_from_indent]
    rcases hok with hok | ⟨ht, hbad⟩
    · simp [hok]
    · cases strict with
      | false => simp
      | true =>
        simp only [if_true, ht, Bool.false_eq_true, if_false]
        by_cases hz : indent_size = 0
        · have hpos : ¬ 0 < specIndentOf raw := by
            simp [specBadIndent, hz] at hbad
            omega
          simp [hz, hpos]
        · have : ¬ (0 < specIndentOf raw ∧ specIndentOf raw % indent_size ≠ 0) := by
            simp [specBadIndent, hz] at hbad
            omega
          by_cases hpos : 0 < specIndentOf raw
          · have hmod : specIndentOf raw % indent_size = 0 := by
              rcases Classical.not_and_iff_or_not_not.mp this with h | h
              · exact absurd hpos h
              · exact Classical.not_not.mp h
            simp [hz, hpos, hmod]
          · simp [hz, hpos]

/-- C6 witness: the amended scanner characterization applied to the
concrete, strictly-scanned line `  a: 1` with indent size 2: not blank,
no tab, indent an exact multiple, hence a `ParsedLine` at depth 1. -/
theorem c6_scanner_rules_witness :
    parse_line_incremental ("  a: 1".data) create_scan_state 2 true =
      .ok (some ⟨("  a: 1".data), 2, ("a: 1".data), 1, 1⟩, ⟨1, []⟩) :=
  (c6_scanner_strict_and_blank_rules ("  a: 1".data) create_scan_state 2 true).2.2
    (by decide) (Or.inr ⟨by decide, by decide⟩)

/-- C6 counterexample: the claim as stated demands an error for every
strict-scanned line whose leading whitespace contains a tab, but the line
consisting of a single tab is recorded as blank and scans without error. -/
theorem c6_counterexample_blank_tab_line :
    specLeadingWsHasTab ("\t".data) = true ∧
    parse_line_incremental ("\t".data) create_scan_state 2 true =
      .ok (none, ⟨1, [⟨1, 0, 0⟩]⟩) := ⟨rfl, rfl⟩

/-- C10: the `expect` ("tabular header missing key") and `panic!`
("tabular row contains non-primitive value") inside
`write_tabular_rows_lines` are unreachable: rows checked by
`extract_tabular_header`/`is_tabular_array` always succeed, every call
site of `write_tabular_rows_lines` in the encoder is so guarded, and
encoding (a tabular array or anything else) never reaches the panic
outcome, at any fuel. -/
theorem c10_tabular_panics_unreachable :
    (∀ (rows : List JsonValue) (header : List Str) (depth : Nat)
        (options : ResolvedEncodeOptions),
      is_tabular_array rows header = true →
      ∃ lines, write_tabular_rows_lines rows header depth options = some lines) ∧
    (∀ (fuel : Nat) (value : JsonValue) (options : ResolvedEncodeOptions),
      encode_json_value fuel value options ≠ .panicked) ∧
    (∀ (fuel : Nat) (input : JsonValue) (options : Option EncodeOptions),
      encode_lines fuel input options ≠ .panicked) := by
  have hjson : ∀ (fuel : Nat) (value : JsonValue) (options : ResolvedEncodeOptions),
      encode_json_value fuel value options ≠ .panicked := by
    intro fuel value opts
    cases value with
    | primitive p => exact EncRes.ok_ne_panicked _
    | array items => exact (encoder_no_panic fuel).2.2.2.2.1 _ _ _ _
    | object entries => exact (encoder_no_panic fuel).1 _ _ _ _ _ _
  exact ⟨fun rows header depth opts h =>
      write_tabular_rows_of_tabular rows header depth opts h,
    hjson,
    fun fuel input opts => hjson fuel _ _⟩

/-- C10 witness: the guarded tabular writer applied to a concrete checked
row set. -/
theorem c10_tabular_panics_unreachable_witness :
    ∃ lines, write_tabular_rows_lines
      [JsonValue.object [(("a".data), .primitive (.bool true))]] [("a".data)] 1
      (resolve_encode_options none) = some lines :=
  c10_tabular_panics_unreachable.1
    [JsonValue.object [(("a".data), .primitive (.bool true))]] [("a".data)] 1
    (resolve_encode_options none) (by decide)

/-- C8: with `expandPaths = safe`, a single-entry object is expanded into
a nested path exactly when the key contains a dot, was not quoted, and
splits into valid bare identifier segments; otherwise the entry is copied
through unexpanded.  Concretely, `a.b: 1` decodes to `{"a":{"b":1}}` and
`"a.b": 1` decodes to `{"a.b":1}`. -/
theorem c8_path_expansion_condition :
    (∀ (key : Str) (v : NodeValue) (quoted_keys : List Str) (strict : Bool),
      expand_paths_safe (.object [(key, v)] quoted_keys) strict =
        match expand_paths_safe v strict with
        | .error e => .error e
        | .ok v2 => .ok (.object
            (if specExpandCond key quoted_keys then
              specNestedPath (splitOnChar DOT key) v2
             else [(key, v2)]) [])) ∧
    try_decode 99 ("a.b: 1".data) (some ⟨none, none, some .safe⟩) =
      .ok (.object [(("a".data), .object [(("b".data), .primitive (.num ⟨1, 1⟩))])]) ∧
    try_decode 99 ("\"a.b\": 1".data) (some ⟨none, none, some .safe⟩) =
      .ok (.object [(("a.b".data), .primitive (.num ⟨1, 1⟩))]) := by
  refine ⟨?_, rfl, rfl⟩
  intro key v qs strict
  cases h : expand_paths_safe v strict with
  | error e =>
    simp only [expand_paths_safe, expand_object_entries, h]
  | ok v2 =>
    by_cases hc : specExpandCond key qs = true
    · have hcRaw : (strContainsChar key DOT && !qs.contains key &&
          (splitOnChar DOT key).all is_identifier_segment) = true := hc
      simp only [expand_paths_safe, expand_object_entries, h, specExpandCond, hcRaw,
        if_true,
        insert_path_entries_nil (splitOnChar DOT key) v2 strict
          (splitOnChar_ne_nil DOT key)]
    · have hcRaw : (strContainsChar key DOT && !qs.contains key &&
          (splitOnChar DOT key).all is_identifier_segment) = false := by
        simpa [specExpandCond] using hc
      simp only [expand_paths_safe, expand_object_entries, h, specExpandCond, hcRaw,
        Bool.false_eq_true, if_false, insert_literal_entry, find_entry_index,
        List.findIdx?_nil, List.nil_append]

/-- C9: in a tabular array body, each row is rewritten into an object by
pairing header fields with row values in header order, with `Null` for
every missing value — so the row object has exactly one entry per field.
Concretely, lenient decoding of `items[1]{a,b}:` with the short row `x`
yields `{"items":[{"a":"x","b":null}]}`. -/
theorem c9_lenient_tabular_row_padding :
    (∀ (fields : List Str) (primitives : List JsonPrim),
      yield_object_from_fields fields primitives =
        JsonStreamEvent.startObject :: rowPairEvents fields primitives ++
        [JsonStreamEvent.endObject]) ∧
    try_decode 99 ("items[1]\x7ba,b\x7d:\n  x".data) (some ⟨none, some false, none⟩) =
      .ok (.object [(("items".data), .array [
        .object [(("a".data), .primitive (.str ("x".data))),
                 (("b".data), .primitive .null)]])]) := by
  refine ⟨?_, rfl⟩
  intro fields primitives
  have haux := yield_row_aux fields primitives 0
  rw [List.drop_zero] at haux
  simp only [yield_object_from_fields, List.enum_eq_enumFrom, haux]
  rfl

/-! ### C5: primitive token classification -/

theorem dropWhile_idem (p : Char → Bool) (l : Str) :
    (l.dropWhile p).dropWhile p = l.dropWhile p := by
  induction l with
  | nil => rfl
  | cons c rest ih =>
    by_cases hc : p c
    · simp [List.dropWhile_cons, hc, ih]
    · simp [List.dropWhile_cons, hc]

theorem dropWhile_fixed_of_prefix (p : Char → Bool) (t l : Str)
    (hpre : t <+: l) (hl : l.dropWhile p = l) : t.dropWhile p = t := by
  cases t with
  | nil => rfl
  | cons c t2 =>
    have hc : p c = false := by
      obtain ⟨rest, hrest⟩ := hpre
      by_contra hcc
      have hcc' : p c = true := by
        cases hpc : p c
        · exact absurd hpc hcc
        · rfl
      rw [← hrest, List.cons_append, List.dropWhile_cons, if_pos hcc'] at hl
      have hsub := (List.dropWhile_sublist (l := t2 ++ rest) p).length_le
      rw [hl] at hsub
      simp at hsub
    simp [List.dropWhile_cons, hc]

theorem trimEnd_trimEnd (s : Str) : trimEnd (trimEnd s) = trimEnd s := by
  simp [trimEnd, dropWhile_idem]

theorem trimStart_trimEnd_trimStart (s : Str) :
    trimStart (trimEnd (trimStart s)) = trimEnd (trimStart s) := by
  apply dropWhile_fixed_of_prefix rustIsWhitespace _ (trimStart s)
  · have hsuf : (trimStart s).reverse.dropWhile rustIsWhitespace <:+ (trimStart s).reverse :=
      List.dropWhile_suffix _
    have := List.reverse_prefix.mpr hsuf
    simpa [trimEnd] using this
  · exact dropWhile_idem _ _

theorem trim_trim (s : Str) : trim (trim s) = trim s := by
  show trimEnd (trimStart (trimEnd (trimStart s))) = trimEnd (trimStart s)
  rw [trimStart_trimEnd_trimStart, trimEnd_trimEnd]

theorem specSkipDigits_eq (s : Str) :
    specSkipDigits s = s.dropWhile (fun c => c.isDigit) := by
  induction s with
  | nil => rfl
  | cons c rest ih =>
    by_cases hc : c.isDigit
    · simp [specSkipDigits, List.dropWhile_cons, hc, ih]
    · simp [specSkipDigits, List.dropWhile_cons, hc]

theorem specDigitRun_eqTake (r : Str) :
    specDigitRun r = (if (r.takeWhile fun c => c.isDigit).length = 0 then none
      else some (r.dropWhile fun c => c.isDigit)) := by
  cases r with
  | nil => rfl
  | cons c rest =>
    by_cases hc : c.isDigit
    · simp [specDigitRun, hc, List.takeWhile_cons, List.dropWhile_cons, specSkipDigits_eq]
    · simp [specDigitRun, hc, List.takeWhile_cons, List.dropWhile_cons]

theorem expTail_eq (r : Str) : is_numeric_like.expTail r = specSignedDigits r := by
  cases r with
  | nil => simp [is_numeric_like.expTail, specSignedDigits, specDigitRun_eqTake]
  | cons c more =>
    by_cases hp : c = '+'
    · subst hp
      simp [is_numeric_like.expTail, specSignedDigits, specDigitRun_eqTake]
    · by_cases hm : c = '-'
      · subst hm
        simp [is_numeric_like.expTail, specSignedDigits, specDigitRun_eqTake]
      · simp [is_numeric_like.expTail, specSignedDigits, specDigitRun_eqTake, hp, hm,
          List.takeWhile_cons, List.dropWhile_cons]

theorem numIntStep_eq (s : Str) : numIntStep s = specIntPart s := by
  cases s with
  | nil => rfl
  | cons d r =>
    by_cases h0 : d = '0'
    · subst h0; rfl
    · have h1 : numIntStep (d :: r) =
          (if d.isDigit then some ((d :: r).dropWhile (fun x => x.isDigit)) else none) := by
        unfold numIntStep
        split
        · next heq => rw [List.cons.injEq] at heq; exact absurd heq.1 h0
        · next c rest heq => rw [List.cons.injEq] at heq; rw [heq.1, heq.2]
        · next heq => exact absurd heq (List.cons_ne_nil _ _)
      have h2 : specIntPart (d :: r) =
          (if d.isDigit then some (specSkipDigits r) else none) := by
        unfold specIntPart
        split
        · next heq => rw [List.cons.injEq] at heq; exact absurd heq.1 h0
        · next c rest heq => rw [List.cons.injEq] at heq; rw [heq.1, heq.2]
        · next heq => exact absurd heq (List.cons_ne_nil _ _)
      rw [h1, h2]
      by_cases hd : d.isDigit
      · simp [hd, specSkipDigits_eq, List.dropWhile_cons]
      · simp [hd]

theorem numFracStep_eq (r : Str) : numFracStep r = specFracPart r := by
  cases r with
  | nil => rfl
  | cons f r4 =>
    by_cases hf : f = '.'
    · subst hf
      show (let frac := r4.takeWhile (fun c => c.isDigit);
            if frac.length = 0 then none else some (r4.dropWhile (fun c => c.isDigit)))
          = specDigitRun r4
      rw [specDigitRun_eqTake]
    · have h1 : numFracStep (f :: r4) = some (f :: r4) := by
        unfold numFracStep
        split
        · next heq => rw [List.cons.injEq] at heq; exact absurd heq.1 hf
        · rfl
      have h2 : specFracPart (f :: r4) = some (f :: r4) := by
        unfold specFracPart
        split
        · next heq => rw [List.cons.injEq] at heq; exact absurd heq.1 hf
        · rfl
      rw [h1, h2]

theorem numExpStep_eq (r : Str) : numExpStep r = specExpPart r := by
  cases r with
  | nil => rfl
  | cons g r5 =>
    by_cases hg : g = 'e'
    · subst hg
      show is_numeric_like.expTail r5 = specSignedDigits r5
      exact expTail_eq r5
    · by_cases hE : g = 'E'
      · subst hE
        show is_numeric_like.expTail r5 = specSignedDigits r5
        exact expTail_eq r5
      · have h1 : numExpStep (g :: r5) = some (g :: r5) := by
          unfold numExpStep
          split
          · next heq => rw [List.cons.injEq] at heq; exact absurd heq.1 hg
          · next heq => rw [List.cons.injEq] at heq; exact absurd heq.1 hE
          · rfl
        have h2 : specExpPart (g :: r5) = some (g :: r5) := by
          unfold specExpPart
          split
          · next heq => rw [List.cons.injEq] at heq; exact absurd heq.1 hg
          · next heq => rw [List.cons.injEq] at heq; exact absurd heq.1 hE
          · rfl
        rw [h1, h2]

theorem is_numeric_literal_eq (t : Str) (ht : trim t = t) :
    is_numeric_literal t = (specNumericGrammar t && f64IsFinite (numParse t)) := by
  simp only [is_numeric_literal, specNumericGrammar, ht, numIntStep_eq, numFracStep_eq,
    numExpStep_eq]
  rcases t with _ | ⟨c, rest⟩
  · rfl
  · by_cases hneg : c = '-'
    · subst hneg
      simp only [numSignSplit, specStripMinus]
      cases rest with
      | nil => rfl
      | cons d r2 =>
        simp only [List.isEmpty_cons, Bool.and_false, Bool.false_eq_true, if_false,
          List.isEmpty_nil]
        cases h1 : specIntPart (d :: r2) with
        | none => simp [h1]
        | some r1 =>
          simp only [h1]
          cases h2 : specFracPart r1 with
          | none => simp [h2]
          | some rr2 =>
            simp only [h2]
            cases h3 : specExpPart rr2 with
            | none => simp [h3]
            | some r3 => simp only [h3]
    · have hs : numSignSplit (c :: rest) = (false, c :: rest) := by
        unfold numSignSplit
        split
        · next heq => rw [List.cons.injEq] at heq; exact absurd heq.1 hneg
        · rfl
      have hs2 : specStripMinus (c :: rest) = c :: rest := by
        unfold specStripMinus
        split
        · next heq => rw [List.cons.injEq] at heq; exact absurd heq.1 hneg
        · rfl
      simp only [hs, hs2, List.isEmpty_cons, Bool.false_and, Bool.false_eq_true, if_false]
      cases h1 : specIntPart (c :: rest) with
      | none => simp [h1]
      | some r1 =>
        simp only [h1]
        cases h2 : specFracPart r1 with
        | none => simp [h2]
        | some rr2 =>
          simp only [h2]
          cases h3 : specExpPart rr2 with
          | none => simp [h3]
          | some r3 => simp only [h3]

theorem fcqAux_cons_other (c : Char) (rest : Str) (i : Nat)
    (hbs : c ≠ '\\') (hq : c ≠ '"') :
    fcqAux (c :: rest) i = fcqAux rest (i + 1) := by
  rw [fcqAux.eq_def]
  split
  · next heq => exact absurd heq (List.cons_ne_nil _ _)
  · next heq => rw [List.cons.injEq] at heq; exact absurd heq.1 hbs
  · next heq => rw [List.cons.injEq] at heq; exact absurd heq.1 hq
  · next heq =>
    rw [List.cons.injEq] at heq
    rw [heq.2]

theorem fcqAux_ge (l : Str) (i : Nat) : ∀ j, fcqAux l i = some j → i ≤ j := by
  induction l, i using fcqAux.induct with
  | case1 i =>
    intro j h
    simp [fcqAux] at h
  | case2 x rest i ih =>
    intro j h
    rw [show fcqAux ('\\' :: x :: rest) i = fcqAux rest (i + 2) from rfl] at h
    have := ih j h
    omega
  | case3 rest i =>
    intro j h
    rw [show fcqAux ('"' :: rest) i = some i from rfl] at h
    injection h with h
    omega
  | case4 c rest i hne1 hne2 ih =>
    intro j h
    by_cases hbs : c = '\\'
    · subst hbs
      cases rest with
      | nil =>
        rw [show fcqAux ['\\'] i = fcqAux [] (i + 1) from rfl] at h
        simp [fcqAux] at h
      | cons x r2 => exact absurd rfl (hne1 x r2 rfl)
    · have hq : c ≠ '"' := fun hc => hne2 hc
      rw [fcqAux_cons_other c rest i hbs hq] at h
      have := ih j h
      omega

theorem specQuotedScan_cons_some (c : Char) (rest content rest3 : Str)
    (hbs : c ≠ '\\') (hq : c ≠ '"')
    (hrec : specQuotedScan rest = some (content, rest3)) :
    specQuotedScan (c :: rest) = some (c :: content, rest3) := by
  rw [specQuotedScan.eq_def]
  split
  · next heq => exact absurd heq (List.cons_ne_nil _ _)
  · next heq => rw [List.cons.injEq] at heq; exact absurd heq.1 hbs
  · next heq => rw [List.cons.injEq] at heq; exact absurd heq.1 hq
  · next heq =>
    rw [List.cons.injEq] at heq
    obtain ⟨h1, h2⟩ := heq
    subst h1
    subst h2
    rw [hrec]

theorem specQuotedScan_cons_none (c : Char) (rest : Str)
    (hbs : c ≠ '\\') (hq : c ≠ '"')
    (hrec : specQuotedScan rest = none) :
    specQuotedScan (c :: rest) = none := by
  rw [specQuotedScan.eq_def]
  split
  · next heq => exact absurd heq (List.cons_ne_nil _ _)
  · next heq => rw [List.cons.injEq] at heq; exact absurd heq.1 hbs
  · next heq => rw [List.cons.injEq] at heq; exact absurd heq.1 hq
  · next heq =>
    rw [List.cons.injEq] at heq
    obtain ⟨h1, h2⟩ := heq
    subst h1
    subst h2
    rw [hrec]

theorem unescape_cons_ok (c : Char) (rest out : Str)
    (hbs : c ≠ '\\') (h : unescape_string rest = .ok out) :
    unescape_string (c :: rest) = .ok (c :: out) := by
  rw [unescape_string.eq_def]
  split
  · next heq => exact absurd heq (List.cons_ne_nil _ _)
  · next heq => rw [List.cons.injEq] at heq; exact absurd heq.1 hbs
  · next heq =>
    rw [List.cons.injEq] at heq
    obtain ⟨h1, h2⟩ := heq
    subst h1
    subst h2
    rw [h]

theorem unescape_cons_err (c : Char) (rest : Str) (e : String)
    (hbs : c ≠ '\\') (h : unescape_string rest = .error e) :
    unescape_string (c :: rest) = .error e := by
  rw [unescape_string.eq_def]
  split
  · next heq => exact absurd heq (List.cons_ne_nil _ _)
  · next heq => rw [List.cons.injEq] at heq; exact absurd heq.1 hbs
  · next heq =>
    rw [List.cons.injEq] at heq
    obtain ⟨h1, h2⟩ := heq
    subst h1
    subst h2
    rw [h]

theorem quoted_scan_agree (body : Str) : ∀ i : Nat,
    (∀ content rest, specQuotedScan body = some (content, rest) →
      ∃ k, fcqAux body i = some (i + k) ∧
        unescape_string (body.take k) = .ok content ∧
        body.length = k + 1 + rest.length) ∧
    (specQuotedScan body = none →
      fcqAux body i = none ∨
      ∃ k e, fcqAux body i = some (i + k) ∧
        unescape_string (body.take k) = .error e) := by
  induction body using specQuotedScan.induct with
  | case1 =>
    intro i
    constructor
    · intro content rest h
      simp [specQuotedScan] at h
    · intro _
      left
      rfl
  | case2 =>
    intro i
    constructor
    · intro content rest h
      simp [specQuotedScan] at h
    · intro _
      left
      rfl
  | case3 next rest2 hd =>
    intro i
    have hspec : specQuotedScan ('\\' :: next :: rest2) = none := by
      simp [specQuotedScan, hd]
    constructor
    · intro content rest h
      rw [hspec] at h
      exact absurd h (by simp)
    · intro _
      have hfc : fcqAux ('\\' :: next :: rest2) i = fcqAux rest2 (i + 2) := rfl
      cases hfq : fcqAux rest2 (i + 2) with
      | none =>
        left
        rw [hfc, hfq]
      | some j =>
        right
        have hij : i + 2 ≤ j := fcqAux_ge rest2 (i + 2) j hfq
        refine ⟨j - i, "Invalid escape sequence", ?_, ?_⟩
        · rw [hfc, hfq]
          congr 1
          omega
        · have h2 : j - i = (j - i - 2) + 1 + 1 := by omega
          rw [h2]
          show unescape_string ('\\' :: next :: rest2.take (j - i - 2)) =
            .error "Invalid escape sequence"
          simp [unescape_string, hd]
  | case4 next rest2 c hd content' rest3 hrec ih =>
    intro i
    obtain ⟨k', hfc', hun', hlen'⟩ := (ih (i + 2)).1 content' rest3 hrec
    have hspec : specQuotedScan ('\\' :: next :: rest2) = some (c :: content', rest3) := by
      simp [specQuotedScan, hd, hrec]
    constructor
    · intro content rest h
      rw [hspec] at h
      injection h with h
      rw [Prod.mk.injEq] at h
      obtain ⟨h1, h2⟩ := h
      subst h1
      subst h2
      refine ⟨k' + 2, ?_, ?_, ?_⟩
      · show fcqAux rest2 (i + 2) = some (i + (k' + 2))
        rw [hfc']
        congr 1
        omega
      · show unescape_string ('\\' :: next :: rest2.take k') = .ok (c :: content')
        simp [unescape_string, hd, hun']
      · show ('\\' :: next :: rest2).length = (k' + 2) + 1 + rest3.length
        simp only [List.length_cons]
        omega
    · intro h
      rw [hspec] at h
      exact absurd h (by simp)
  | case5 next rest2 c hd hrec ih =>
    intro i
    have hspec : specQuotedScan ('\\' :: next :: rest2) = none := by
      simp [specQuotedScan, hd, hrec]
    constructor
    · intro content rest h
      rw [hspec] at h
      exact absurd h (by simp)
    · intro _
      rcases (ih (i + 2)).2 hrec with hfq | ⟨k', e', hfc', hun'⟩
      · left
        show fcqAux rest2 (i + 2) = none
        exact hfq
      · right
        refine ⟨k' + 2, e', ?_, ?_⟩
        · show fcqAux rest2 (i + 2) = some (i + (k' + 2))
          rw [hfc']
          congr 1
          omega
        · show unescape_string ('\\' :: next :: rest2.take k') = .error e'
          simp [unescape_string, hd, hun']
  | case6 rest =>
    intro i
    constructor
    · intro content rest' h
      have hspec : specQuotedScan ('"' :: rest) = some ([], rest) := rfl
      rw [hspec] at h
      injection h with h
      rw [Prod.mk.injEq] at h
      obtain ⟨h1, h2⟩ := h
      subst h1
      subst h2
      refine ⟨0, ?_, rfl, ?_⟩
      · show some i = some (i + 0)
        rw [Nat.add_zero]
      · simp only [List.length_cons]
        omega
    · intro h
      exact absurd h (by simp [specQuotedScan])
  | case7 c rest hbs hq content' rest3 hrec ih =>
    intro i
    have hbs' : c ≠ '\\' := fun hc => hbs hc
    have hq' : c ≠ '"' := fun hc => hq hc
    have hspec := specQuotedScan_cons_some c rest content' rest3 hbs' hq' hrec
    obtain ⟨k', hfc', hun', hlen'⟩ := (ih (i + 1)).1 content' rest3 hrec
    constructor
    · intro content rest' h
      rw [hspec] at h
      injection h with h
      rw [Prod.mk.injEq] at h
      obtain ⟨h1, h2⟩ := h
      subst h1
      subst h2
      refine ⟨k' + 1, ?_, ?_, ?_⟩
      · rw [fcqAux_cons_other c rest i hbs' hq', hfc']
        congr 1
        omega
      · show unescape_string (c :: rest.take k') = .ok (c :: content')
        exact unescape_cons_ok c _ _ hbs' hun'
      · simp only [List.length_cons]
        omega
    · intro h
      rw [hspec] at h
      exact absurd h (by simp)
  | case8 c rest hbs hq hrec ih =>
    intro i
    have hbs' : c ≠ '\\' := fun hc => hbs hc
    have hq' : c ≠ '"' := fun hc => hq hc
    have hspec := specQuotedScan_cons_none c rest hbs' hq' hrec
    constructor
    · intro content rest' h
      rw [hspec] at h
      exact absurd h (by simp)
    · intro _
      rcases (ih (i + 1)).2 hrec with hfq | ⟨k', e', hfc', hun'⟩
      · left
        rw [fcqAux_cons_other c rest i hbs' hq', hfq]
      · right
        refine ⟨k' + 1, e', ?_, ?_⟩
        · rw [fcqAux_cons_other c rest i hbs' hq', hfc']
          congr 1
          omega
        · show unescape_string (c :: rest.take k') = .error e'
          exact unescape_cons_err c _ _ hbs' hun'

/-- C5 (amended): `parse_primitive_token` agrees with the specified
classification order — empty token, quoted string literal (terminated,
nothing trailing, five escapes only), `true`/`false`/`null`, then the
strict numeric grammar amended with the source's finite-`f64`
requirement, otherwise the trimmed token as a bare string — on every
token (agreement compares results, not error messages). -/
theorem c5_primitive_token_classification (token : Str) :
    exceptAgrees (parse_primitive_token token) (specClassify token) := by
  by_cases hE : (trim token).isEmpty = true
  · simp [parse_primitive_token, specClassify, hE, exceptAgrees]
  · rcases htr : trim token with _ | ⟨c, body⟩
    · rw [htr] at hE
      simp at hE
    · have htt : trim (c :: body) = c :: body := by
        rw [← htr, trim_trim]
      by_cases hq : c = '"'
      · subst hq
        simp only [parse_primitive_token, specClassify, htr, htt, parse_string_literal,
          find_closing_quote, List.isEmpty_cons, Bool.false_eq_true, if_false,
          startsWithChar, List.drop_succ_cons, List.drop_zero, Nat.zero_add,
          decide_True, if_true]
        cases hscan : specQuotedScan body with
        | some pr =>
          obtain ⟨content, rest⟩ := pr
          obtain ⟨k, hfcq, hun, hlen⟩ := (quoted_scan_agree body 1).1 content rest hscan
          cases rest with
          | nil =>
            simp only [List.length_nil, Nat.add_zero] at hlen
            have hlen2 : ('"' :: body).length - 1 = 1 + k := by
              simp only [List.length_cons]
              omega
            have hk : 1 + k - 1 = k := by omega
            simp [hfcq, hlen2, hk, hun, exceptAgrees]
            rw [if_pos (show 1 + k = body.length by omega)]
          | cons r rs =>
            simp only [List.length_cons] at hlen
            have hcl : 1 + k ≠ ('"' :: body).length - 1 := by
              simp only [List.length_cons]
              omega
            simp [hfcq, hcl, exceptAgrees]
            rw [if_neg (show ¬(1 + k = body.length) by omega)]
            trivial
        | none =>
          rcases (quoted_scan_agree body 1).2 hscan with hfq | ⟨k, e, hfcq, hun⟩
          · simp [hfq, exceptAgrees]
          · by_cases hc : 1 + k = body.length
            · simp [hfcq, hun, hc, exceptAgrees]
              rw [show body.length - 1 = k from by omega, hun]
              trivial
            · simp [hfcq, hun, hc, exceptAgrees]
      · simp only [parse_primitive_token, specClassify, htr, htt, List.isEmpty_cons,
          Bool.false_eq_true, if_false, startsWithChar]
        have hsw : ¬(decide (c = '"') = true) := by simp [hq]
        rw [if_neg hsw, if_neg hsw]
        by_cases hT : c :: body = TRUE_LITERAL
        · simp [is_boolean_or_null_literal, hT, exceptAgrees]
        · by_cases hF : c :: body = FALSE_LITERAL
          · simp [is_boolean_or_null_literal, hF, exceptAgrees, TRUE_LITERAL, FALSE_LITERAL]
          · by_cases hN : c :: body = NULL_LITERAL
            · simp [is_boolean_or_null_literal, hN, exceptAgrees, TRUE_LITERAL,
                FALSE_LITERAL, NULL_LITERAL]
            · rw [is_numeric_literal_eq (c :: body) htt]
              by_cases hnum :
                  (specNumericGrammar (c :: body) && f64IsFinite (numParse (c :: body))) = true
              · simp [is_boolean_or_null_literal, hT, hF, hN, hnum, exceptAgrees]
              · simp [is_boolean_or_null_literal, hT, hF, hN, hnum, exceptAgrees]

/-- C5 counterexample to the claim as stated: `1e309` matches the strict
JSON numeric grammar, so the claim classifies it as a number (and §3
normalization would turn the non-finite value into `null`), but the code
rejects it in `is_numeric_literal` (no finite `f64` value) and returns
the whole token as a bare string. -/
theorem c5_counterexample_overflowing_numeric_token :
    specNumericGrammar ('1' :: "e309".data) = true ∧
    f64IsFinite (numParse ('1' :: "e309".data)) = false ∧
    parse_primitive_token ('1' :: "e309".data) =
      .ok (.str ('1' :: "e309".data)) :=
  ⟨by decide, by decide, rfl⟩


/-! ### C7: array-header parser result discipline -/

theorem except_ok_ne_error {α : Type} (a : α) (e : String) :
    (Except.ok a : Except String α) ≠ .error e := fun h => Except.noConfusion h

theorem except_bind_error {α β : Type} (x : Except String α)
    (f : α → Except String β) (e : String)
    (h : x >>= f = .error e) :
    x = .error e ∨ ∃ a, x = .ok a ∧ f a = .error e := by
  cases x with
  | error e2 =>
    left
    have h2 : (Except.error e2 : Except String β) = Except.error e := h
    injection h2 with h3
    rw [h3]
  | ok a => exact Or.inr ⟨a, rfl, h⟩

theorem unescape_error_msgs (s : Str) : ∀ e : String,
    unescape_string s = .error e →
    e = "Invalid escape sequence" ∨
    e = "Invalid escape sequence: backslash at end of string" := by
  induction s using unescape_string.induct with
  | case1 =>
    intro e h
    simp [unescape_string] at h
  | case2 =>
    intro e h
    have h2 : (Except.error "Invalid escape sequence: backslash at end of string"
        : Except String Str) = .error e := h
    injection h2 with h3
    exact Or.inr h3.symm
  | case3 next rest2 hd =>
    intro e h
    simp [unescape_string, hd] at h
    exact Or.inl h.symm
  | case4 next rest2 c hd e2 herr ih =>
    intro e h
    simp [unescape_string, hd, herr] at h
    subst h
    exact ih e2 herr
  | case5 next rest2 c hd out hok ih =>
    intro e h
    simp [unescape_string, hd, hok] at h
  | case6 ch rest hbs e2 herr ih =>
    intro e h
    rw [unescape_cons_err ch rest e2 (fun hc => hbs hc) herr] at h
    injection h with h3
    subst h3
    exact ih e2 herr
  | case7 ch rest hbs out hok ih =>
    intro e h
    rw [unescape_cons_ok ch rest out (fun hc => hbs hc) hok] at h
    exact absurd h (except_ok_ne_error _ _)

theorem psl_error_msgs (t : Str) (e : String)
    (h : parse_string_literal t = .error e) :
    e = "Unterminated string: missing closing quote" ∨
    e = "Unexpected characters after closing quote" ∨
    e = "Invalid escape sequence" ∨
    e = "Invalid escape sequence: backslash at end of string" := by
  simp only [parse_string_literal] at h
  split at h
  · split at h
    · injection h with h2
      exact Or.inl h2.symm
    · split at h
      · injection h with h2
        exact Or.inr (Or.inl h2.symm)
      · rcases unescape_error_msgs _ _ h with h2 | h2
        · exact Or.inr (Or.inr (Or.inl h2))
        · exact Or.inr (Or.inr (Or.inr h2))
  · exact absurd h (except_ok_ne_error _ _)

theorem mapM_loop_psl_error (l : List Str) : ∀ (acc : List Str) (e : String),
    List.mapM.loop (fun field => parse_string_literal (trim field)) l acc = .error e →
    e = "Unterminated string: missing closing quote" ∨
    e = "Unexpected characters after closing quote" ∨
    e = "Invalid escape sequence" ∨
    e = "Invalid escape sequence: backslash at end of string" := by
  induction l with
  | nil =>
    intro acc e h
    exact absurd h (except_ok_ne_error _ _)
  | cons a as ih =>
    intro acc e h
    have h2 : (parse_string_literal (trim a) >>= fun x =>
        List.mapM.loop (fun field => parse_string_literal (trim field)) as (x :: acc))
        = .error e := h
    rcases except_bind_error _ _ _ h2 with h1 | ⟨x, hx, h1⟩
    · exact psl_error_msgs _ _ h1
    · exact ih (x :: acc) e h1

theorem mapM_psl_error (l : List Str) (e : String)
    (h : (l.mapM fun field => parse_string_literal (trim field)) = .error e) :
    e = "Unterminated string: missing closing quote" ∨
    e = "Unexpected characters after closing quote" ∨
    e = "Invalid escape sequence" ∨
    e = "Invalid escape sequence: backslash at end of string" :=
  mapM_loop_psl_error l [] e h

theorem pahl_bracket_search_error (content : Str) (e : String)
    (h : pahl_bracket_search content = .error e) :
    e = "Unterminated string: missing closing quote" := by
  simp only [pahl_bracket_search] at h
  split at h
  · split at h
    · have h2 : (Except.error "Unterminated string: missing closing quote"
          : Except String (Option (Option Nat))) = .error e := h
      injection h2 with h3
      exact h3.symm
    · split at h
      · exact absurd h (except_ok_ne_error _ _)
      · exact absurd h (except_ok_ne_error _ _)
  · exact absurd h (except_ok_ne_error _ _)

theorem pahl_key_error (content : Str) (bracket_start : Nat) (e : String)
    (h : pahl_key content bracket_start = .error e) :
    e = "Unterminated string: missing closing quote" ∨
    e = "Unexpected characters after closing quote" ∨
    e = "Invalid escape sequence" ∨
    e = "Invalid escape sequence: backslash at end of string" := by
  simp only [pahl_key] at h
  split at h
  · split at h
    · split at h
      · next e2 heq =>
        have h2 : (Except.error e2 : Except String (Option Str)) = .error e := h
        injection h2 with h3
        subst h3
        exact psl_error_msgs _ _ heq
      · exact absurd h (except_ok_ne_error _ _)
    · split at h
      · exact absurd h (except_ok_ne_error _ _)
      · exact absurd h (except_ok_ne_error _ _)
  · exact absurd h (except_ok_ne_error _ _)

theorem pahl_fields_error (content : Str) (brace_start : Option Nat)
    (colon_index : Nat) (delimiter : Char) (e : String)
    (h : pahl_fields content brace_start colon_index delimiter = .error e) :
    e = "Unterminated string: missing closing quote" ∨
    e = "Unexpected characters after closing quote" ∨
    e = "Invalid escape sequence" ∨
    e = "Invalid escape sequence: backslash at end of string" := by
  simp only [pahl_fields] at h
  split at h
  · split at h
    · split at h
      · split at h
        · split at h
          · next e2 heq =>
            have h2 : (Except.error e2 : Except String (Option (List Str))) = .error e := h
            injection h2 with h3
            subst h3
            exact mapM_psl_error _ _ heq
          · exact absurd h (except_ok_ne_error _ _)
        · exact absurd h (except_ok_ne_error _ _)
      · exact absurd h (except_ok_ne_error _ _)
    · exact absurd h (except_ok_ne_error _ _)
  · exact absurd h (except_ok_ne_error _ _)

theorem pahl_error_msgs (content : Str) (delim : Char) (e : String)
    (h : parse_array_header_line content delim = .error e) :
    e = "Unterminated string: missing closing quote" ∨
    e = "Unexpected characters after closing quote" ∨
    e = "Invalid escape sequence" ∨
    e = "Invalid escape sequence: backslash at end of string" := by
  simp only [parse_array_header_line] at h
  rcases except_bind_error _ _ _ h with h1 | ⟨bs2, hbs2, h1⟩
  · exact Or.inl (pahl_bracket_search_error _ _ h1)
  · cases bs2 with
    | none => exact absurd h1 (except_ok_ne_error _ _)
    | some bs3 =>
      cases bs3 with
      | none => exact absurd h1 (except_ok_ne_error _ _)
      | some bracket_start =>
        split at h1
        · exact absurd h1 (except_ok_ne_error _ _)
        · next bs4 heq =>
          injection heq with heq2
          subst heq2
          split at h1
          · next bs5 heq2 =>
            injection heq2 with heq3
            subst heq3
            split at h1
            · rcases except_bind_error _ _ _ h1 with h2 | ⟨key2, hkey2, h2⟩
              · exact pahl_key_error _ _ _ h2
              · split at h2
                · exact absurd h2 (except_ok_ne_error _ _)
                · rcases except_bind_error _ _ _ h2 with h3 | ⟨f2, hf2, h3⟩
                  · exact pahl_fields_error _ _ _ _ _ h3
                  · exact absurd h3 (except_ok_ne_error _ _)
            · exact absurd h1 (except_ok_ne_error _ _)
          · next hno =>
            exact absurd rfl (hno bracket_start)

/-- C7 (amended): `parse_array_header_line` returns `Err` only for a
malformed string literal inside the line — every error it can produce is
one of the four string-literal parse errors (unterminated literal,
trailing characters after the closing quote, or an invalid/truncated
escape), raised while parsing the quoted key or a quoted field name;
lines whose skeleton search fails yield `Ok none`, but text between the
bracket (or brace block) and the colon is not validated, so lines
outside the grammar can still yield `Ok (some _)`. -/
theorem c7_array_header_err_only_for_literals (content : Str) (delim : Char) :
    match parse_array_header_line content delim with
    | .error e =>
      e = "Unterminated string: missing closing quote" ∨
      e = "Unexpected characters after closing quote" ∨
      e = "Invalid escape sequence" ∨
      e = "Invalid escape sequence: backslash at end of string"
    | .ok _ => True := by
  cases hp : parse_array_header_line content delim with
  | error e => exact pahl_error_msgs content delim e hp
  | ok v => trivial

/-- C7 counterexample to the claim as stated: `x[2]junk: a` does not
match the array-header grammar (text between `]` and `:`), yet
`parse_array_header_line` returns `Ok (some _)` — not `Ok None` — parsing
it as a header for key `x` of length 2 with inline value `a`. -/
theorem c7_counterexample_junk_after_bracket :
    specArrayHeaderGrammar ("x[2]junk: a".data) = false ∧
    parse_array_header_line ("x[2]junk: a".data) ',' =
      .ok (some ⟨⟨some ('x' :: []), 2, ',', none⟩, some ('a' :: [])⟩) :=
  ⟨by decide, rfl⟩


/-- C3: the claimed fold/expand inverse — with matching options,
decoding with `expandPaths = safe` the text produced by encoding with
`keyFolding = safe` returns the original single-child identifier-key
chain — fails on the code: the object mapping `a` to an object mapping
`b` to the string `[1]: y` folds to the line `a.b: "[1]: y"`, the
decoder's quote-blind bracket search misparses that line as an array
header with the mangled key `a.b: "`, and path expansion cannot restore
the chain, so the decoded value maps that mangled key to a one-element
array instead of reproducing the input. -/
theorem c3_fold_expand_inverse_fails_on_bracket_value :
    encode 99 c3Input (some ⟨none, none, some .safe, none⟩) = .ok c3Text ∧
    try_decode 99 c3Text (some ⟨none, none, some .safe⟩) = .ok c3Decoded ∧
    c3Decoded ≠ c3Input ∧ c3Decoded ≠ normalize_json_value c3Input := by
  refine ⟨rfl, rfl, ?_, ?_⟩
  · simp [c3Decoded, c3Input]
  · simp [c3Decoded, c3Input, normalize_json_value, normalize_entries,
      normalize_primitive]


end Toon
